import Mathlib

/-!
Verification of the crawl scheduler and recovery subsystem of the
doc-to-md tool (src/crawler.py, src/recovery_manager.py, src/main.py).

URLs are modelled as lists of characters.  The URL parsing performed by
`WebCrawler._normalize_url` delegates to Python's `urllib.parse`
(`urlparse` / `urlunparse`); those stdlib functions are embedded below
following the CPython implementation (ASCII-level model: `str.lower` is
modelled as ASCII lowercasing, and the NFKC netloc check, a no-op on
ASCII input, is omitted).
-/

namespace DocToMd

abbrev Url := List Char

/-- ASCII model of Python `str.lower` on a single character. -/
def lowerChar (c : Char) : Char :=
  if 'A' ≤ c ∧ c ≤ 'Z' then Char.ofNat (c.toNat + 32) else c

/-- ASCII model of Python `str.lower`. -/
def lowerL (u : Url) : Url := u.map lowerChar

/-- `_UNSAFE_URL_BYTES_TO_REMOVE`: urlsplit removes every tab, CR and LF. -/
def removeUnsafe (u : Url) : Url :=
  u.filter fun c => ¬(c = '\t' ∨ c = '\r' ∨ c = '\n')

/-- `url.lstrip(_WHATWG_C0_CONTROL_OR_SPACE)`: urlsplit strips leading C0
control characters and spaces (code points `0x00`-`0x20`). -/
def lstripC0 (u : Url) : Url :=
  u.dropWhile fun c => c.toNat ≤ 32

def isAsciiAlpha (c : Char) : Bool :=
  ('a' ≤ c ∧ c ≤ 'z') ∨ ('A' ≤ c ∧ c ≤ 'Z')

def isAsciiDigit (c : Char) : Bool := '0' ≤ c ∧ c ≤ '9'

/-- `scheme_chars` of `urllib.parse`. -/
def isSchemeChar (c : Char) : Bool :=
  isAsciiAlpha c ∨ isAsciiDigit c ∨ c = '+' ∨ c = '-' ∨ c = '.'

/-- Scheme detection condition of `urlsplit`: the part before the first
colon is a scheme iff it is non-empty, starts with an ASCII letter and
consists of scheme characters only. -/
def isValidScheme (p : Url) : Bool :=
  match p with
  | [] => false
  | c :: _ => isAsciiAlpha c && p.all isSchemeChar

/-- `urlsplit` scheme splitting: `i = url.find(':')`; if `i > 0`, the first
character is an ASCII letter and `url[:i]` consists of scheme characters,
then the scheme is `url[:i].lower()` and the remainder `url[i+1:]`. -/
def splitScheme (u : Url) : Url × Url :=
  let pre := u.takeWhile fun c => c ≠ ':'
  if pre.length < u.length && isValidScheme pre then
    (lowerL pre, u.drop (pre.length + 1))
  else ([], u)

/-- Split a list at the first occurrence of `c` (Python `str.split(c, 1)`
when `c` occurs, identity with empty second component otherwise). -/
def splitFirst (c : Char) (u : Url) : Url × Url :=
  let pre := u.takeWhile fun d => d ≠ c
  if pre.length < u.length then (pre, u.drop (pre.length + 1)) else (u, [])

/-- `_splitnetloc` delimiter test: the netloc extends to the first of
`/`, `?`, `#`. -/
def isNetlocEnd (c : Char) : Bool := c = '/' ∨ c = '?' ∨ c = '#'

structure SplitResult where
  scheme : Url
  netloc : Url
  path : Url
  query : Url
  fragment : Url
deriving Repr, DecidableEq

/-- CPython 3.11 `urllib.parse.urlsplit` (with `allow_fragments = True`).
Returns `none` where the Python function raises `ValueError`
("Invalid IPv6 URL": a netloc containing `[` without `]` or vice versa). -/
def urlsplitE (url0 : Url) : Option SplitResult :=
  let u1 := removeUnsafe (lstripC0 url0)
  let (s, r) := splitScheme u1
  if r.take 2 = ['/', '/'] then
    let nl := (r.drop 2).takeWhile fun c => ¬ isNetlocEnd c
    let rest := (r.drop 2).drop nl.length
    if (nl.contains '[' && !nl.contains ']') ||
       (nl.contains ']' && !nl.contains '[') then none
    else
      let (r1, f) := splitFirst '#' rest
      let (p, q) := splitFirst '?' r1
      some ⟨s, nl, p, q, f⟩
  else
    let (r1, f) := splitFirst '#' r
    let (p, q) := splitFirst '?' r1
    some ⟨s, [], p, q, f⟩

/-- `uses_params` of `urllib.parse`. -/
def usesParams : List Url :=
  ["", "ftp", "hdl", "prospero", "http", "imap", "https", "shttp",
   "rtsp", "rtspu", "sip", "sips", "mms", "sftp", "tel"].map String.toList

/-- `uses_netloc` of `urllib.parse`. -/
def usesNetloc : List Url :=
  ["", "ftp", "http", "gopher", "nntp", "telnet", "imap", "wais", "file",
   "mms", "https", "shttp", "snews", "prospero", "rtsp", "rtspu", "rsync",
   "svn", "svn+ssh", "sftp", "nfs", "git", "git+ssh", "ws", "wss"].map
    String.toList

/-- Index of the last `/` in `p` (meaningful only when `p` contains one):
Python `p.rfind('/')`. -/
def lastSlashIdx (p : Url) : Nat :=
  p.length - 1 - (p.reverse.takeWhile fun c => c ≠ '/').length

/-- `_splitparams`: split path and parameters at the first `;` of the last
path segment (or of the whole path when it has no `/`); only called when
the path contains a `;`. -/
def splitParamsCore (p : Url) : Url × Url :=
  if p.contains '/' then
    let ls := lastSlashIdx p
    let tl := p.drop ls
    let pre := tl.takeWhile fun c => c ≠ ';'
    if pre.length < tl.length then (p.take (ls + pre.length), tl.drop (pre.length + 1))
    else (p, [])
  else splitFirst ';' p

structure ParseResult where
  scheme : Url
  netloc : Url
  path : Url
  params : Url
  query : Url
  fragment : Url
deriving Repr, DecidableEq

/-- CPython `urllib.parse.urlparse`: `urlsplit` plus parameter splitting
for schemes in `uses_params`. -/
def urlparseE (u : Url) : Option ParseResult :=
  match urlsplitE u with
  | none => none
  | some r =>
    if usesParams.contains r.scheme && r.path.contains ';' then
      let (p, par) := splitParamsCore r.path
      some ⟨r.scheme, r.netloc, p, par, r.query, r.fragment⟩
    else some ⟨r.scheme, r.netloc, r.path, [], r.query, r.fragment⟩

/-- CPython `urllib.parse.urlunsplit`. -/
def urlunsplitL (s nl p q f : Url) : Url :=
  let url1 :=
    if nl ≠ [] ∨ (s ≠ [] ∧ usesNetloc.contains s ∧ p.take 2 ≠ ['/', '/']) then
      let p' := if p ≠ [] ∧ p.take 1 ≠ ['/'] then '/' :: p else p
      '/' :: '/' :: (nl ++ p')
    else p
  let url2 := if s ≠ [] then s ++ ':' :: url1 else url1
  let url3 := if q ≠ [] then url2 ++ '?' :: q else url2
  if f ≠ [] then url3 ++ '#' :: f else url3

/-- CPython `urllib.parse.urlunparse`. -/
def urlunparseL (s nl p par q f : Url) : Url :=
  urlunsplitL s nl (if par ≠ [] then p ++ ';' :: par else p) q f

/-- Python `p.rstrip('/')`: drop all trailing slashes. -/
def rstripSlash (p : Url) : Url :=
  (p.reverse.dropWhile fun c => c = '/').reverse

/-- The path component as normalized by `_normalize_url`:
`parsed.path.rstrip('/') if parsed.path != '/' else '/'`. -/
def normPath (p : Url) : Url :=
  if p = ['/'] then ['/'] else rstripSlash p

/-- `WebCrawler._normalize_url` (crawler.py lines 114-131): parse, lowercase
scheme and netloc, strip trailing slashes off the path (keeping a bare
root `/`), drop params, query and fragment, and unparse; on a parse
error, return a lowercased copy of the input. -/
def normalizeUrl (u : Url) : Url :=
  match urlparseE u with
  | some r => urlunparseL (lowerL r.scheme) (lowerL r.netloc) (normPath r.path) [] [] []
  | none => lowerL u

/-- `_normalize_url` at the level of Lean strings. -/
def normalizeUrlS (s : String) : String := ⟨normalizeUrl s.toList⟩

/-- The host of a URL for the specification's scheme-agnostic host
comparison (section 4.2 of the spec speaks of the link's *host* matching
the allowed domain's host).  Modelled from the spec: the host is the
network-location component of the parsed URL, compared case-insensitively;
this definition exists to compare the spec's admission rule with the
code's, it is not part of the source. -/
def specHostOf (s : String) : Url :=
  match urlsplitE s.toList with
  | some r => lowerL r.netloc
  | none => lowerL s.toList

/-! ## Dictionary and set primitives

Python `dict` (insertion ordered, unique keys; assignment of a fresh key
appends, of a present key overwrites in place) and `set` (membership only
is relevant) modelled on association lists / lists. -/

def dictFind {α : Type} (l : List (String × α)) (k : String) : Option α :=
  (l.find? fun p => p.1 = k).map fun p => p.2

def dictGetD {α : Type} (l : List (String × α)) (k : String) (d : α) : α :=
  (dictFind l k).getD d

def dictSet {α : Type} (l : List (String × α)) (k : String) (v : α) :
    List (String × α) :=
  if l.any fun p => p.1 = k then
    l.map fun p => if p.1 = k then (k, v) else p
  else l ++ [(k, v)]

def setAdd (l : List String) (s : String) : List String :=
  if s ∈ l then l else l ++ [s]

/-! ## Retry configuration and backoff (crawler.py)

Python numbers from the `retry` configuration block are modelled as `Int`
(counts, status codes) and `ℚ` (delays).  The defaults are the ones the
corresponding `.get` calls supply. -/

structure RetryConfig where
  maxRetries : Int := 3
  initialDelay : ℚ := 1
  backoffFactor : ℚ := 2
  maxDelay : ℚ := 60
  skipAfterFailures : Int := 5
  retryStatusCodes : List Int := [429, 500, 502, 503, 504]

/-- `WebCrawler._calculate_backoff_delay` (crawler.py lines 229-236):
`min(initial_delay * backoff_factor ** retry_count, max_delay)`. -/
def calculateBackoffDelay (rc : RetryConfig) (retryCount : Nat) : ℚ :=
  min (rc.initialDelay * rc.backoffFactor ^ retryCount) rc.maxDelay

/-! ## Crawler state and fetch (crawler.py) -/

structure URLPriorityQueue where
  entries : List (Int × Nat × String)
  index : Nat
deriving DecidableEq

def URLPriorityQueue.emptyQ : URLPriorityQueue := ⟨[], 0⟩

/-- `URLPriorityQueue.put`: `heapq.heappush(self._queue, (priority, self._index, url))`. -/
def URLPriorityQueue.put (q : URLPriorityQueue) (url : String) (priority : Int) :
    URLPriorityQueue :=
  ⟨(priority, q.index, url) :: q.entries, q.index + 1⟩

/-- Heap order on queue entries: lexicographic on (priority, index); the
index is unique per entry, so the URL is never compared. -/
def entryLt (a b : Int × Nat × String) : Bool :=
  a.1 < b.1 ∨ (a.1 = b.1 ∧ a.2.1 < b.2.1)

/-- `URLPriorityQueue.get`: pop the least entry (heap pop). -/
def URLPriorityQueue.get (q : URLPriorityQueue) :
    Option String × URLPriorityQueue :=
  match q.entries with
  | [] => (none, q)
  | e :: rest =>
    let m := rest.foldl (fun acc x => if entryLt x acc then x else acc) e
    (some m.2.2, ⟨q.entries.erase m, q.index⟩)

def URLPriorityQueue.emptyB (q : URLPriorityQueue) : Bool := q.entries.isEmpty

/-- One network attempt's outcome, mirroring the `try`/`except` arms of
`_fetch_page`: success, `Timeout`, `ConnectionError`, `HTTPError` (with
status code), other `RequestException`, unexpected exception. -/
inductive FetchOutcome where
  | ok (text : String)
  | timeout
  | connError
  | httpError (status : Int)
  | reqError
  | otherExc
deriving DecidableEq

/-- The network as an oracle: outcome of fetching `url` on the attempt
with the given `retry_count`. -/
abbrev Net := String → Nat → FetchOutcome

/-- Mutable state of `WebCrawler`: visited set, normalized-URL map
(normalized → first-seen raw URL), failure counts, statistics, queue. -/
structure CrawlState where
  visitedUrls : List String
  normalizedUrls : List (String × String)
  failedUrlCounts : List (String × Nat)
  totalCrawled : Nat
  totalFailed : Nat
  totalSkipped : Nat
  urlQueue : URLPriorityQueue
deriving DecidableEq

def CrawlState.fresh : CrawlState :=
  ⟨[], [], [], 0, 0, 0, URLPriorityQueue.emptyQ⟩

/-- `WebCrawler._should_skip_url` (crawler.py lines 238-242):
`failed_url_counts.get(url, 0) >= skip_after_failures`. -/
def shouldSkipUrl (rc : RetryConfig) (st : CrawlState) (url : String) : Bool :=
  Int.ofNat (dictGetD st.failedUrlCounts url 0) ≥ rc.skipAfterFailures

/-- `WebCrawler._increment_failure_count` together with the
`stats['total_failed'] += 1` every `except` arm performs. -/
def recordFailure (st : CrawlState) (url : String) : CrawlState :=
  { st with
    failedUrlCounts :=
      dictSet st.failedUrlCounts url (dictGetD st.failedUrlCounts url 0 + 1),
    totalFailed := st.totalFailed + 1 }

/-- `WebCrawler._should_retry_status_code`: membership in the configured
`retry_status_codes`. -/
def shouldRetryStatusCode (rc : RetryConfig) (status : Int) : Bool :=
  status ∈ rc.retryStatusCodes

/-- Whether the `except` arm for this outcome reaches its recursive
`_fetch_page(url, retry_count + 1)` call.  Timeout / connection / other
request errors retry while `retry_count < max_retries - 1`
(`ErrorHandler.should_retry` is `True` for every `NetworkError`); HTTP
status errors additionally require the status to be in
`retry_status_codes`; unexpected exceptions never retry. -/
def outcomeRetries (rc : RetryConfig) (o : FetchOutcome) (retryCount : Nat) : Bool :=
  match o with
  | .ok _ => false
  | .timeout | .connError | .reqError => (retryCount : Int) < rc.maxRetries - 1
  | .httpError status =>
    shouldRetryStatusCode rc status ∧ (retryCount : Int) < rc.maxRetries - 1
  | .otherExc => false

/-- `WebCrawler._fetch_page` (crawler.py lines 253-379): auto-skip check
before any network activity; on success return the text; on a failed
attempt increment the lifetime failure count and `total_failed`, then
either retry with `retry_count + 1` or give up with `None`. -/
def fetchPage (rc : RetryConfig) (net : Net) (url : String) (retryCount : Nat)
    (st : CrawlState) : Option String × CrawlState :=
  if shouldSkipUrl rc st url then (none, st)
  else
    match net url retryCount with
    | .ok text => (some text, st)
    | o =>
      let st' := recordFailure st url
      if h : outcomeRetries rc o retryCount then
        fetchPage rc net url (retryCount + 1) st'
      else (none, st')
termination_by (rc.maxRetries - 1 - retryCount).toNat
decreasing_by
  cases o <;> simp [outcomeRetries, shouldRetryStatusCode] at h <;> omega

/-- Number of failed attempts a single `_fetch_page` call performs,
following the same recursion as `fetchPage`. -/
def fetchFailCount (rc : RetryConfig) (net : Net) (url : String) (retryCount : Nat)
    (st : CrawlState) : Nat :=
  if shouldSkipUrl rc st url then 0
  else
    match net url retryCount with
    | .ok _ => 0
    | o =>
      let st' := recordFailure st url
      if h : outcomeRetries rc o retryCount then
        1 + fetchFailCount rc net url (retryCount + 1) st'
      else 1
termination_by (rc.maxRetries - 1 - retryCount).toNat
decreasing_by
  cases o <;> simp [outcomeRetries, shouldRetryStatusCode] at h <;> omega

/-- `WebCrawler.is_url_visited`: normalized form present in the
normalized-URL map. -/
def isUrlVisited (st : CrawlState) (url : String) : Bool :=
  (dictFind st.normalizedUrls (normalizeUrlS url)).isSome

/-- `WebCrawler.mark_url_as_visited` (crawler.py lines 482-488). -/
def markUrlAsVisited (st : CrawlState) (url : String) : CrawlState :=
  let normalized := normalizeUrlS url
  if (dictFind st.normalizedUrls normalized).isSome then st
  else
    { st with
      normalizedUrls := dictSet st.normalizedUrls normalized url,
      visitedUrls := setAdd st.visitedUrls url,
      totalCrawled := st.totalCrawled + 1 }

/-! ## Admission filter (crawler.py `_is_valid_url`) -/

/-- Crawl-relevant configuration of the crawler: `target_site` and
`crawler` blocks. -/
structure CrawlerConfig where
  startUrl : String
  allowedDomain : String
  excludePatterns : List String

/-- Python `str.startswith` (used as `url.startswith(allowed_domain)`),
computed on the character lists. -/
def listStartsWith : List Char → List Char → Bool
  | [], _ => true
  | _ :: _, [] => false
  | c :: cs, d :: ds => c = d && listStartsWith cs ds

def pyStartsWith (s pre : String) : Bool := listStartsWith pre.toList s.toList

/-- The reason component of `_is_valid_url`'s result. -/
inductive AdmissionReason where
  | emptyUrl
  | duplicateUrl
  | domainNotAllowed
  | excludedByPattern (pat : String)
  | valid
deriving DecidableEq

/-- Python `re.search` as an oracle: `none` models a pattern that raises
`re.error` (invalid regular expression, logged and skipped); `some b`
gives whether the pattern matches the URL. -/
abbrev ReSearch := String → String → Option Bool

/-- The exclusion-pattern loop of `_is_valid_url`: the first pattern that
compiles and matches, if any. -/
def findExcluded (reSearch : ReSearch) (pats : List String) (url : String) :
    Option String :=
  match pats with
  | [] => none
  | p :: rest =>
    match reSearch p url with
    | some true => some p
    | _ => findExcluded reSearch rest url

/-- `WebCrawler._is_valid_url` (crawler.py lines 133-164): empty check,
duplicate check on the normalized form, allowed-domain check
(`url.startswith(allowed_domain)`, skipped when the configured domain is
empty), exclusion patterns evaluated against the raw URL. -/
def isValidUrl (reSearch : ReSearch) (cfg : CrawlerConfig) (st : CrawlState)
    (url : String) : Bool × AdmissionReason :=
  if url = "" then (false, .emptyUrl)
  else if (dictFind st.normalizedUrls (normalizeUrlS url)).isSome then
    (false, .duplicateUrl)
  else if cfg.allowedDomain ≠ "" ∧ ¬ pyStartsWith url cfg.allowedDomain then
    (false, .domainNotAllowed)
  else
    match findExcluded reSearch cfg.excludePatterns url with
    | some p => (false, .excludedByPattern p)
    | none => (true, .valid)

/-- The candidate links of a page: absolute URL and computed priority for
every anchor in the navigation region.  HTML parsing, `urljoin` and the
priority heuristic of `_calculate_priority` are external to the scheduler
logic and enter as an oracle. -/
abbrev RawLinks := String → String → List (String × Int)

/-- `WebCrawler._extract_links` restricted to the scheduler logic: keep
the candidates that pass `_is_valid_url`. -/
def extractLinks (reSearch : ReSearch) (rawLinks : RawLinks) (cfg : CrawlerConfig)
    (st : CrawlState) (url html : String) : List (String × Int) :=
  (rawLinks url html).filter fun l => (isValidUrl reSearch cfg st l.1).1

/-! ## Recovery manager (recovery_manager.py)

The checkpoint file holds a JSON document; `json.dump`/`json.load` are the
stdlib's, so the file system is modelled as mapping a path to the stored
JSON value (or to `corrupted` for a file `json.load` raises on, or
`absent`).  `json.dumps(..., sort_keys=True)` and `hashlib.md5(...)
.hexdigest()` used by the configuration checksum are external functions
and enter as parameters `dumps` and `md5`. -/

inductive Json where
  | str (s : String)
  | num (n : Int)
  | arr (l : List Json)
  | obj (l : List (String × Json))

inductive FileContent where
  | absent
  | corrupted
  | stored (j : Json)

abbrev FS := String → FileContent

/-- `RecoveryState` (recovery_manager.py lines 15-27).  The Python set
`visited_urls` is modelled as the list of its elements; counters are
Python ints. -/
structure RecoveryState where
  startUrl : String := ""
  visitedUrls : List String := []
  failedUrlCounts : List (String × Nat) := []
  processedCount : Int := 0
  successCount : Int := 0
  failedCount : Int := 0
  crawledUrls : List String := []
  timestamp : String := ""
  configChecksum : String := ""
deriving DecidableEq

/-- `RecoveryState.to_dict`. -/
def toDict (s : RecoveryState) : Json :=
  .obj
    [("start_url", .str s.startUrl),
     ("visited_urls", .arr (s.visitedUrls.map .str)),
     ("failed_url_counts", .obj (s.failedUrlCounts.map fun p => (p.1, .num p.2))),
     ("processed_count", .num s.processedCount),
     ("success_count", .num s.successCount),
     ("failed_count", .num s.failedCount),
     ("crawled_urls", .arr (s.crawledUrls.map .str)),
     ("timestamp", .str s.timestamp),
     ("config_checksum", .str s.configChecksum)]

def jGet (kvs : List (String × Json)) (k : String) : Option Json :=
  dictFind kvs k

def jGetD (kvs : List (String × Json)) (k : String) (d : Json) : Json :=
  (jGet kvs k).getD d

def decStr : Json → Option String
  | .str s => some s
  | _ => none

def decStrList : Json → Option (List String)
  | .arr l => l.mapM decStr
  | _ => none

def decCount : Json → Option Nat
  | .num n => if 0 ≤ n then some n.toNat else none
  | _ => none

def decCountMap : Json → Option (List (String × Nat))
  | .obj kvs => kvs.mapM fun p => (decCount p.2).map fun n => (p.1, n)
  | _ => none

def decInt : Json → Option Int
  | .num n => some n
  | _ => none

/-- `RecoveryState.from_dict`: every field is read with `data.get` and a
default.  A document that is not an object, or a field whose value does
not have the shape the field is used at, makes the restore fail (in
Python the corresponding operation raises inside `load_state`'s `try`). -/
def fromDict (j : Json) : Option RecoveryState :=
  match j with
  | .obj kvs => do
    let su ← decStr (jGetD kvs "start_url" (.str ""))
    let vu ← decStrList (jGetD kvs "visited_urls" (.arr []))
    let fc ← decCountMap (jGetD kvs "failed_url_counts" (.obj []))
    let pc ← decInt (jGetD kvs "processed_count" (.num 0))
    let sc ← decInt (jGetD kvs "success_count" (.num 0))
    let flc ← decInt (jGetD kvs "failed_count" (.num 0))
    let cu ← decStrList (jGetD kvs "crawled_urls" (.arr []))
    let ts ← decStr (jGetD kvs "timestamp" (.str ""))
    let cc ← decStr (jGetD kvs "config_checksum" (.str ""))
    pure ⟨su, vu, fc, pc, sc, flc, cu, ts, cc⟩
  | _ => none

/-- The `recovery` configuration block. -/
structure RecoveryConfig where
  recoveryFile : String := "./recovery_state.json"
  saveInterval : Nat := 10
  enableRecovery : Bool := true

/-- The configuration a `RecoveryManager` holds: the four crawl-relevant
sections (arbitrary YAML mappings, kept as JSON values) and the recovery
block. -/
structure ToolConfig where
  targetSite : Json
  crawler : Json
  extractor : Json
  output : Json
  recovery : RecoveryConfig

/-- The `key_config` dict of `_calculate_config_checksum`. -/
def keyConfigJson (c : ToolConfig) : Json :=
  .obj
    [("target_site", c.targetSite),
     ("crawler", c.crawler),
     ("extractor", c.extractor),
     ("output", c.output)]

/-- `RecoveryManager._calculate_config_checksum` (lines 71-82):
`hashlib.md5(json.dumps(key_config, sort_keys=True).encode()).hexdigest()`. -/
def calcConfigChecksum (md5 : String → String) (dumps : Json → String)
    (c : ToolConfig) : String :=
  md5 (dumps (keyConfigJson c))

/-- `RecoveryManager.has_recovery_file`: file exists and recovery enabled. -/
def hasRecoveryFile (rc : RecoveryConfig) (fs : FS) : Bool :=
  (match fs rc.recoveryFile with
   | .absent => false
   | _ => true) && rc.enableRecovery

/-- The comparison `data.get('config_checksum', '') != current_checksum`
inside `can_resume`: with the checksum a string, equality holds only for
a string field equal to it (a missing field compares as the empty
string). -/
def checksumMatches (kvs : List (String × Json)) (current : String) : Bool :=
  match jGet kvs "config_checksum" with
  | none => "" = current
  | some (.str s) => s = current
  | some _ => false

/-- `RecoveryManager.can_resume` (lines 88-108): recovery file present
(and recovery enabled), readable as JSON, and its embedded configuration
checksum equal to the current configuration's.  A read or parse failure
returns `False` through the `except` arm; `data.get` on a non-object
document raises, with the same effect. -/
def canResume (md5 : String → String) (dumps : Json → String) (cfg : ToolConfig)
    (fs : FS) : Bool :=
  hasRecoveryFile cfg.recovery fs &&
    match fs cfg.recovery.recoveryFile with
    | .stored (.obj kvs) => checksumMatches kvs (calcConfigChecksum md5 dumps cfg)
    | _ => false

/-- `RecoveryManager.load_state` (lines 110-132): `None` models returning
`False`; a successful load returns the restored state. -/
def loadState (md5 : String → String) (dumps : Json → String) (cfg : ToolConfig)
    (fs : FS) : Option RecoveryState :=
  if canResume md5 dumps cfg fs then
    match fs cfg.recovery.recoveryFile with
    | .stored j => fromDict j
    | _ => none
  else none

/-- Index of the last occurrence of `c` in `p` (meaningful only when `p`
contains `c`): Python `str.rfind`. -/
def lastIdxOf (c : Char) (p : List Char) : Nat :=
  p.length - 1 - (p.reverse.takeWhile fun d => d ≠ c).length

/-- `Path(path).with_suffix('.tmp')`: on the final path component, replace
the extension (a dot at position `0 < i < len - 1` of the name) by
`.tmp`, or append `.tmp` when there is none. -/
def withSuffixTmp (path : String) : String :=
  let l := path.toList
  let cut := if l.contains '/' then lastIdxOf '/' l + 1 else 0
  let dir := l.take cut
  let name := l.drop cut
  let newName :=
    if name.contains '.' then
      let i := lastIdxOf '.' name
      if 0 < i ∧ i < name.length - 1 then name.take i ++ ".tmp".toList
      else name ++ ".tmp".toList
    else name ++ ".tmp".toList
  ⟨dir ++ newName⟩

/-- File-system operations `save_state` performs after serializing. -/
inductive FsOp where
  | write (path : String) (j : Json)
  | rename (src dst : String)

def applyOp (fs : FS) : FsOp → FS
  | .write p j => fun q => if q = p then .stored j else fs q
  | .rename src dst => fun q =>
      if q = dst then fs src else if q = src then .absent else fs q

def runOps (ops : List FsOp) (fs : FS) : FS := ops.foldl applyOp fs

/-- The write sequence of `save_state` (lines 163-171): write the document
to the `.tmp` sibling, then `temp_file.replace(self.recovery_file)`. -/
def saveOps (recoveryFile : String) (j : Json) : List FsOp :=
  [.write (withSuffixTmp recoveryFile) j, .rename (withSuffixTmp recoveryFile) recoveryFile]

/-- The file system after a crash that interrupts the write of the
temporary file: the write target holds partial content, nothing else has
changed. -/
def midWriteFs (path : String) (fs : FS) : FS :=
  fun q => if q = withSuffixTmp path then .corrupted else fs q

/-- The observable file systems if the process crashes at each point of
`save_state`'s write sequence: before any operation, mid-way through
writing the temporary file, after writing it, and after the rename. -/
def crashStates (path : String) (j : Json) (fs : FS) : List FS :=
  [fs,
   midWriteFs path fs,
   applyOp fs (.write (withSuffixTmp path) j),
   runOps (saveOps path j) fs]

/-- `RecoveryManager.save_state` (lines 134-176) acting on the manager's
call counter and the file system; `now` is the `datetime.now().isoformat()`
timestamp.  Nothing is written unless recovery is enabled and the
incremented call counter reaches a multiple of `save_interval`. -/
def saveState (md5 : String → String) (dumps : Json → String) (cfg : ToolConfig)
    (now : String) (saveCounter : Nat) (fs : FS) (startUrl : String)
    (visitedUrls : List String) (failedUrlCounts : List (String × Nat))
    (processedCount successCount failedCount : Int) (crawledUrls : List String) :
    Nat × FS :=
  if ¬ cfg.recovery.enableRecovery then (saveCounter, fs)
  else
    let c := saveCounter + 1
    if c % cfg.recovery.saveInterval ≠ 0 then (c, fs)
    else
      let state : RecoveryState :=
        { startUrl := startUrl, visitedUrls := visitedUrls,
          failedUrlCounts := failedUrlCounts, processedCount := processedCount,
          successCount := successCount, failedCount := failedCount,
          crawledUrls := crawledUrls, timestamp := now,
          configChecksum := calcConfigChecksum md5 dumps cfg }
      (c, runOps (saveOps cfg.recovery.recoveryFile (toDict state)) fs)

/-! ## The integrated crawl-and-convert loop (main.py) -/

/-- State of `DocToMarkdownTool._crawl_and_convert`: the crawler, the
loop's counters and the crawled-URL list.  `convertedTrace` records the
observable converter invocations (`converter.process_page` calls) of this
run, in order. -/
structure MainState where
  crawler : CrawlState
  processedCount : Int
  successCount : Int
  failedCount : Int
  crawledUrls : List String
  convertedTrace : List String

/-- The fresh-start initialization of `_crawl_and_convert` (counters zero,
queue seeded with the start URL at priority 0). -/
def freshInit (cfg : CrawlerConfig) : MainState :=
  { crawler := { CrawlState.fresh with
      urlQueue := URLPriorityQueue.emptyQ.put cfg.startUrl 0 },
    processedCount := 0, successCount := 0, failedCount := 0,
    crawledUrls := [], convertedTrace := [] }

/-- The normalized-URL map rebuilt on resume (main.py lines 156-159):
`for url in visited: normalized_urls[normalize(url)] = url`. -/
def rebuildNormalized (visited : List String) : List (String × String) :=
  visited.foldl (fun m u => dictSet m (normalizeUrlS u) u) []

/-- The resume initialization of `_crawl_and_convert` (main.py lines
146-173): counters and crawled URLs from the checkpoint, the crawler's
visited set and failure counts restored, the normalized-URL map rebuilt
from the visited set, `total_crawled` set to the number of crawled URLs,
and the queue re-seeded with only the start URL. -/
def resumeInit (cfg : CrawlerConfig) (ckpt : RecoveryState) : MainState :=
  { crawler :=
      { CrawlState.fresh with
        visitedUrls := ckpt.visitedUrls,
        normalizedUrls := rebuildNormalized ckpt.visitedUrls,
        failedUrlCounts := ckpt.failedUrlCounts,
        totalCrawled := ckpt.crawledUrls.length,
        urlQueue := URLPriorityQueue.emptyQ.put cfg.startUrl 0 },
    processedCount := ckpt.processedCount,
    successCount := ckpt.successCount,
    failedCount := ckpt.failedCount,
    crawledUrls := ckpt.crawledUrls,
    convertedTrace := [] }

/-- The enqueue loop over extracted links:
`if not is_url_visited(link_url): url_queue.put(link_url, priority)`. -/
def enqueueNewLinks (st : CrawlState) (links : List (String × Int)) : CrawlState :=
  links.foldl
    (fun c l => if isUrlVisited c l.1 then c else { c with urlQueue := c.urlQueue.put l.1 l.2 })
    st

/-- The `while not queue.empty()` loop of `_crawl_and_convert` (main.py
lines 175-245), with explicit fuel (the Python loop need not terminate:
the queue can grow).  `convert` is the content converter
(`converter.process_page`, external): its result decides success or
failure counting.  The periodic `recovery_manager.save_state` call
mutates only the recovery manager and the file system, never the crawler
or loop state, and is modelled separately by `saveState`. -/
def crawlLoop (reSearch : ReSearch) (rawLinks : RawLinks)
    (convert : String → String → Option String) (net : Net) (rc : RetryConfig)
    (cfg : CrawlerConfig) : Nat → MainState → MainState
  | 0, st => st
  | fuel + 1, st =>
    match (URLPriorityQueue.get st.crawler.urlQueue).1 with
    | none => st
    | some currentUrl =>
      let st := { st with crawler :=
        { st.crawler with urlQueue := (URLPriorityQueue.get st.crawler.urlQueue).2 } }
      if isUrlVisited st.crawler currentUrl then
        crawlLoop reSearch rawLinks convert net rc cfg fuel
          { st with crawler :=
            { st.crawler with totalSkipped := st.crawler.totalSkipped + 1 } }
      else
        let st := { st with processedCount := st.processedCount + 1 }
        match fetchPage rc net currentUrl 0 st.crawler with
        | (none, cr) =>
          crawlLoop reSearch rawLinks convert net rc cfg fuel
            { st with crawler := cr, failedCount := st.failedCount + 1 }
        | (some html, cr) =>
          let cr := markUrlAsVisited cr currentUrl
          let st := { st with
            crawler := cr,
            crawledUrls := st.crawledUrls ++ [currentUrl],
            convertedTrace := st.convertedTrace ++ [currentUrl] }
          let st :=
            match convert currentUrl html with
            | some _ => { st with successCount := st.successCount + 1 }
            | none => { st with failedCount := st.failedCount + 1 }
          let links := extractLinks reSearch rawLinks cfg st.crawler currentUrl html
          let st := { st with crawler := enqueueNewLinks st.crawler links }
          crawlLoop reSearch rawLinks convert net rc cfg fuel st

/-- `_crawl_and_convert` with an optional restored checkpoint (the
`resume_from_recovery` branch). -/
def crawlAndConvert (reSearch : ReSearch) (rawLinks : RawLinks)
    (convert : String → String → Option String) (net : Net) (rc : RetryConfig)
    (cfg : CrawlerConfig) (resume : Option RecoveryState) (fuel : Nat) : MainState :=
  crawlLoop reSearch rawLinks convert net rc cfg fuel
    (match resume with
     | some ckpt => resumeInit cfg ckpt
     | none => freshInit cfg)

/-! ## Association-list lemmas -/

theorem dictFind_cons {α : Type} (p : String × α) (l : List (String × α)) (k : String) :
    dictFind (p :: l) k = if p.1 = k then some p.2 else dictFind l k := by
  by_cases h : p.1 = k
  · simp [dictFind, List.find?_cons_of_pos, h]
  · simp [dictFind, List.find?_cons_of_neg, h]

theorem dictFind_append {α : Type} (l1 l2 : List (String × α)) (k : String) :
    dictFind (l1 ++ l2) k =
      match dictFind l1 k with
      | some v => some v
      | none => dictFind l2 k := by
  induction l1 with
  | nil => simp [dictFind]
  | cons p l ih =>
    rw [List.cons_append, dictFind_cons, dictFind_cons]
    by_cases hp : p.1 = k
    · simp [hp]
    · simp only [hp, if_false]; exact ih

theorem dictFind_replace_self {α : Type} (l : List (String × α)) (k : String) (v : α)
    (h : (l.any fun p => p.1 = k) = true) :
    dictFind (l.map fun p => if p.1 = k then (k, v) else p) k = some v := by
  induction l with
  | nil => simp at h
  | cons p l ih =>
    by_cases hp : p.1 = k
    · simp only [List.map_cons, if_pos hp]
      rw [dictFind_cons]
      simp
    · simp only [List.any_cons, hp, decide_False, Bool.false_or] at h
      simp only [List.map_cons, if_neg hp]
      rw [dictFind_cons, if_neg hp]
      exact ih h

theorem dictFind_replace_ne {α : Type} (l : List (String × α)) (k k' : String) (v : α)
    (h : k' ≠ k) :
    dictFind (l.map fun p => if p.1 = k then (k, v) else p) k' = dictFind l k' := by
  induction l with
  | nil => simp [dictFind]
  | cons p l ih =>
    by_cases hp : p.1 = k
    · simp only [List.map_cons, if_pos hp]
      rw [dictFind_cons, dictFind_cons]
      simp only [hp]
      rw [if_neg (fun hh => h hh.symm), if_neg (fun hh => h hh.symm)]
      exact ih
    · simp only [List.map_cons, if_neg hp]
      rw [dictFind_cons, dictFind_cons]
      by_cases hk : p.1 = k'
      · simp [hk]
      · rw [if_neg hk, if_neg hk]; exact ih

theorem dictFind_eq_none_of_not_any {α : Type} (l : List (String × α)) (k : String)
    (h : (l.any fun p => p.1 = k) = false) : dictFind l k = none := by
  induction l with
  | nil => rfl
  | cons p l ih =>
    simp only [List.any_cons, Bool.or_eq_false_iff, decide_eq_false_iff_not] at h
    rw [dictFind_cons, if_neg h.1]
    exact ih (by simp [h.2])

theorem dictFind_dictSet_self {α : Type} (l : List (String × α)) (k : String) (v : α) :
    dictFind (dictSet l k v) k = some v := by
  unfold dictSet
  by_cases h : (l.any fun p => p.1 = k) = true
  · rw [if_pos h]; exact dictFind_replace_self l k v h
  · rw [if_neg h, dictFind_append,
      dictFind_eq_none_of_not_any l k (Bool.eq_false_iff.mpr h)]
    rw [dictFind_cons]
    simp

theorem dictFind_dictSet_ne {α : Type} (l : List (String × α)) (k k' : String) (v : α)
    (h : k' ≠ k) : dictFind (dictSet l k v) k' = dictFind l k' := by
  unfold dictSet
  by_cases ha : (l.any fun p => p.1 = k) = true
  · rw [if_pos ha]; exact dictFind_replace_ne l k k' v h
  · rw [if_neg ha, dictFind_append]
    cases hf : dictFind l k' with
    | some v' => rfl
    | none =>
      rw [dictFind_cons, if_neg (fun hh => h hh.symm)]
      rfl

theorem dictFind_isSome_dictSet {α : Type} (l : List (String × α)) (k k' : String) (v : α)
    (h : (dictFind l k').isSome = true) : (dictFind (dictSet l k v) k').isSome = true := by
  by_cases hk : k' = k
  · subst hk; rw [dictFind_dictSet_self]; rfl
  · rw [dictFind_dictSet_ne _ _ _ _ hk]; exact h

theorem dictGetD_dictSet_self {α : Type} (l : List (String × α)) (k : String) (v d : α) :
    dictGetD (dictSet l k v) k d = v := by
  simp [dictGetD, dictFind_dictSet_self]

theorem dictGetD_dictSet_ne {α : Type} (l : List (String × α)) (k k' : String) (v d : α)
    (h : k' ≠ k) : dictGetD (dictSet l k v) k' d = dictGetD l k' d := by
  simp [dictGetD, dictFind_dictSet_ne _ _ _ _ h]

/-! ## C3: backoff delay -/

/-- C3, counterexample: the claim quantifies over all parameters, but with
`backoff_factor = 1/2` (legal: the retry block is not validated) the
computed delay strictly decreases from attempt 0 to attempt 1, violating
`delay(k1) ≤ delay(k2)`. -/
theorem backoff_monotonicity_counterexample :
    calculateBackoffDelay { backoffFactor := 1/2 } 1 <
      calculateBackoffDelay { backoffFactor := 1/2 } 0 := by
  norm_num [calculateBackoffDelay]

/-- C3, amended: the delay for 0-indexed attempt `k` equals
`min(initial_delay * backoff_factor^k, max_delay)`, and — provided
`initial_delay ≥ 0` and `backoff_factor ≥ 1`, as with the defaults 1.0
and 2 — for attempts `k1 < k2` with the same parameters,
`delay(k1) ≤ delay(k2) ≤ max_delay` (the upper bound needs no proviso). -/
theorem backoff_delay_formula_and_monotone :
    (∀ (rc : RetryConfig) (k : Nat),
       calculateBackoffDelay rc k =
         min (rc.initialDelay * rc.backoffFactor ^ k) rc.maxDelay) ∧
    (∀ (rc : RetryConfig) (k1 k2 : Nat),
       0 ≤ rc.initialDelay → 1 ≤ rc.backoffFactor → k1 < k2 →
         calculateBackoffDelay rc k1 ≤ calculateBackoffDelay rc k2 ∧
         calculateBackoffDelay rc k2 ≤ rc.maxDelay) := by
  refine ⟨fun rc k => rfl, fun rc k1 k2 h0 h1 hk => ⟨?_, min_le_right _ _⟩⟩
  apply min_le_min _ le_rfl
  apply mul_le_mul_of_nonneg_left _ h0
  exact pow_le_pow_right₀ h1 hk.le

/-- Witness for C3's amended theorem at the default parameters and
attempts 0 < 1. -/
theorem backoff_delay_monotone_witness :
    (0 : ℚ) ≤ ({} : RetryConfig).initialDelay ∧
    (1 : ℚ) ≤ ({} : RetryConfig).backoffFactor ∧ 0 < 1 ∧
    calculateBackoffDelay {} 0 ≤ calculateBackoffDelay {} 1 ∧
    calculateBackoffDelay {} 1 ≤ ({} : RetryConfig).maxDelay := by
  refine ⟨by norm_num, by norm_num, by norm_num, ?_, ?_⟩
  · exact (backoff_delay_formula_and_monotone.2 {} 0 1 (by norm_num) (by norm_num)
      (by norm_num)).1
  · exact (backoff_delay_formula_and_monotone.2 {} 0 1 (by norm_num) (by norm_num)
      (by norm_num)).2

/-! ## C10: mark_url_as_visited idempotence -/

/-- C10: `mark_url_as_visited` is idempotent — when the URL's normalized
form is already in the normalized-URL map the call leaves the whole
crawler state (visited set, normalized map, `total_crawled`) unchanged,
and marking twice equals marking once. -/
theorem mark_url_as_visited_idempotent :
    (∀ (st : CrawlState) (url : String),
       (dictFind st.normalizedUrls (normalizeUrlS url)).isSome = true →
         markUrlAsVisited st url = st) ∧
    (∀ (st : CrawlState) (url : String),
       markUrlAsVisited (markUrlAsVisited st url) url = markUrlAsVisited st url) := by
  have h1 : ∀ (st : CrawlState) (url : String),
      (dictFind st.normalizedUrls (normalizeUrlS url)).isSome = true →
        markUrlAsVisited st url = st := by
    intro st url h
    unfold markUrlAsVisited
    simp [h]
  refine ⟨h1, fun st url => ?_⟩
  by_cases h : (dictFind st.normalizedUrls (normalizeUrlS url)).isSome = true
  · rw [h1 st url h]; exact h1 st url h
  · apply h1
    unfold markUrlAsVisited
    simp only [h, Bool.false_eq_true, if_false]
    rw [dictFind_dictSet_self]
    rfl

/-- Witness for C10 at a concrete state and URL. -/
theorem mark_url_as_visited_idempotent_witness :
    (dictFind (markUrlAsVisited CrawlState.fresh "http://a").normalizedUrls
        (normalizeUrlS "http://a")).isSome = true ∧
    markUrlAsVisited (markUrlAsVisited CrawlState.fresh "http://a") "http://a" =
      markUrlAsVisited CrawlState.fresh "http://a" := by
  have hs : (dictFind (markUrlAsVisited CrawlState.fresh "http://a").normalizedUrls
      (normalizeUrlS "http://a")).isSome = true := by decide
  exact ⟨hs, mark_url_as_visited_idempotent.1 _ _ hs⟩

/-! ## C8: atomic checkpoint write -/

theorem runOps_saveOps_self (path : String) (j : Json) (fs : FS) :
    runOps (saveOps path j) fs path = .stored j := by
  simp [runOps, saveOps, applyOp]

/-- C8, amended: `save_state` writes to the `.tmp` sibling and then
renames it over the canonical path, so — provided the configured
checkpoint path does not itself carry the suffix `.tmp`, in which case
the temporary path coincides with it — a crash before, during or after
the temporary write leaves the canonical path's previous content intact,
and the completed sequence stores the new document there. -/
theorem save_state_atomic :
    ∀ (path : String) (j : Json) (fs : FS), withSuffixTmp path ≠ path →
      (∀ g ∈ (crashStates path j fs).take 3, g path = fs path) ∧
      runOps (saveOps path j) fs path = .stored j := by
  intro path j fs h
  refine ⟨?_, runOps_saveOps_self path j fs⟩
  intro g hg
  simp only [crashStates, List.take, List.mem_cons, List.not_mem_nil, or_false] at hg
  rcases hg with rfl | rfl | rfl
  · rfl
  · unfold midWriteFs
    rw [if_neg (fun hh => h hh.symm)]
  · show applyOp fs (.write (withSuffixTmp path) j) path = fs path
    simp only [applyOp]
    rw [if_neg (fun hh => h hh.symm)]

/-- Witness for C8's amended theorem at the default checkpoint path. -/
theorem save_state_atomic_witness :
    withSuffixTmp "./recovery_state.json" ≠ "./recovery_state.json" ∧
    ((∀ g ∈ (crashStates "./recovery_state.json" (.str "new")
          (fun _ => FileContent.absent)).take 3,
        g "./recovery_state.json" = (fun _ => FileContent.absent) "./recovery_state.json") ∧
      runOps (saveOps "./recovery_state.json" (.str "new")) (fun _ => FileContent.absent)
          "./recovery_state.json" = .stored (.str "new")) := by
  have hne : withSuffixTmp "./recovery_state.json" ≠ "./recovery_state.json" := by decide
  exact ⟨hne, save_state_atomic "./recovery_state.json" (.str "new") _ hne⟩

/-- C8, counterexample: with the checkpoint path configured as
`state.tmp`, `with_suffix('.tmp')` yields the same path, the "temporary"
write happens directly at the canonical path, and a crash mid-write
leaves a half-written file where a valid checkpoint stood. -/
theorem save_state_atomic_counterexample :
    withSuffixTmp "state.tmp" = "state.tmp" ∧
    (fun q => if q = "state.tmp" then FileContent.stored (.str "old") else .absent :
        FS) "state.tmp" = .stored (.str "old") ∧
    midWriteFs "state.tmp"
      (fun q => if q = "state.tmp" then FileContent.stored (.str "old") else .absent)
      "state.tmp" = .corrupted := by
  refine ⟨by decide, by simp, ?_⟩
  unfold midWriteFs
  rw [if_pos (by decide)]

/-! ## C2: admission filter -/

theorem findExcluded_eq_none_iff (reSearch : ReSearch) (pats : List String) (url : String) :
    findExcluded reSearch pats url = none ↔ ∀ p ∈ pats, reSearch p url ≠ some true := by
  induction pats with
  | nil => simp [findExcluded]
  | cons p rest ih =>
    simp only [findExcluded, List.mem_cons]
    cases h : reSearch p url with
    | none => simp [h, ih]
    | some b =>
      cases b
      · simp [h, ih]
      · simp [h]

/-- C2, counterexample: the code's domain check is
`url.startswith(allowed_domain)` on the raw URL, not a host comparison:
with allowed domain `https://x.test`, the URL `https://x.test.evil.org/`
— whose host differs from the allowed domain's host — is admitted
(fresh visited map, no exclusion patterns), contradicting the claimed
"admissible iff ... host matches ... exactly". -/
theorem is_valid_url_host_counterexample :
    (isValidUrl (fun _ _ => none)
        ⟨"https://x.test/docs/", "https://x.test", []⟩
        CrawlState.fresh "https://x.test.evil.org/").1 = true ∧
    specHostOf "https://x.test.evil.org/" ≠ specHostOf "https://x.test" := by
  constructor
  · decide
  · decide

/-- C2, amended: `_is_valid_url` admits a URL iff it is non-empty, its
normalized form is not yet in the visited map, it *starts with* the
configured allowed-domain string (a raw-prefix check, not a
scheme-agnostic host comparison; skipped entirely when the configured
domain is empty), and no exclusion pattern matches it — where a pattern
that fails to compile (`re.error`, modelled as `none`) is logged and
never treated as a match.  An inadmissible link is never enqueued. -/
theorem is_valid_url_characterization :
    ∀ (reSearch : ReSearch) (cfg : CrawlerConfig) (st : CrawlState) (url : String),
      (isValidUrl reSearch cfg st url).1 = true ↔
        (url ≠ "" ∧
         (dictFind st.normalizedUrls (normalizeUrlS url)).isSome = false ∧
         (cfg.allowedDomain = "" ∨ pyStartsWith url cfg.allowedDomain = true) ∧
         ∀ p ∈ cfg.excludePatterns, reSearch p url ≠ some true) := by
  intro reSearch cfg st url
  unfold isValidUrl
  by_cases h1 : url = ""
  · simp [h1]
  · rw [if_neg h1]
    by_cases h2 : (dictFind st.normalizedUrls (normalizeUrlS url)).isSome = true
    · simp [h2, h1]
    · rw [if_neg h2]
      by_cases h3 : cfg.allowedDomain ≠ "" ∧ ¬ pyStartsWith url cfg.allowedDomain = true
      · rw [if_pos h3]
        simp only [Bool.false_eq_true, false_iff]
        intro hc
        rcases hc with ⟨-, -, h3', -⟩
        rcases h3' with he | hp
        · exact h3.1 he
        · exact h3.2 hp
      · rw [if_neg h3]
        push_neg at h3
        cases hf : findExcluded reSearch cfg.excludePatterns url with
        | some p =>
          simp only [Bool.false_eq_true, false_iff]
          intro hc
          rcases hc with ⟨-, -, -, h4⟩
          rw [(findExcluded_eq_none_iff reSearch cfg.excludePatterns url).mpr h4] at hf
          exact Option.noConfusion hf
        | none =>
          simp only [true_iff]
          refine ⟨h1, by simpa using h2, ?_, 
            (findExcluded_eq_none_iff reSearch cfg.excludePatterns url).mp hf⟩
          by_cases he : cfg.allowedDomain = ""
          · exact Or.inl he
          · exact Or.inr (by simpa using h3 he)

/-- Witness for C2's amended theorem: a same-prefix link with an empty
visited map and one non-matching pattern is admitted. -/
theorem is_valid_url_characterization_witness :
    (isValidUrl (fun _ _ => some false)
        ⟨"https://x.test/", "https://x.test", [".*#.*"]⟩
        CrawlState.fresh "https://x.test/docs").1 = true := by
  apply (is_valid_url_characterization _ _ _ _).mpr
  refine ⟨by decide, by decide, Or.inr (by decide), ?_⟩
  intro p hp
  simp

/-! ## Fetch effects (for C4 and C9) -/

theorem recordFailure_normalizedUrls (st : CrawlState) (url : String) :
    (recordFailure st url).normalizedUrls = st.normalizedUrls := rfl

theorem recordFailure_totalFailed (st : CrawlState) (url : String) :
    (recordFailure st url).totalFailed = st.totalFailed + 1 := rfl

theorem recordFailure_count_self (st : CrawlState) (url : String) :
    dictGetD (recordFailure st url).failedUrlCounts url 0 =
      dictGetD st.failedUrlCounts url 0 + 1 := by
  unfold recordFailure
  simp only []
  rw [dictGetD_dictSet_self]

theorem recordFailure_count_ne (st : CrawlState) (url u : String) (h : u ≠ url) :
    dictGetD (recordFailure st url).failedUrlCounts u 0 =
      dictGetD st.failedUrlCounts u 0 := by
  unfold recordFailure
  simp only []
  rw [dictGetD_dictSet_ne _ _ _ _ _ h]

/-- Complete effect of one `_fetch_page` call on the crawler state:
everything except the failure tallies is untouched; `total_failed` and
the lifetime count of the fetched URL each grow by exactly the number of
failed attempts of the call; other URLs' counts are untouched. -/
theorem fetchPage_effects (rc : RetryConfig) (net : Net) (url : String) :
    ∀ (k : Nat) (st : CrawlState),
      ((fetchPage rc net url k st).2.normalizedUrls = st.normalizedUrls ∧
       (fetchPage rc net url k st).2.visitedUrls = st.visitedUrls ∧
       (fetchPage rc net url k st).2.totalCrawled = st.totalCrawled ∧
       (fetchPage rc net url k st).2.totalSkipped = st.totalSkipped ∧
       (fetchPage rc net url k st).2.urlQueue = st.urlQueue) ∧
      (fetchPage rc net url k st).2.totalFailed =
        st.totalFailed + fetchFailCount rc net url k st ∧
      dictGetD (fetchPage rc net url k st).2.failedUrlCounts url 0 =
        dictGetD st.failedUrlCounts url 0 + fetchFailCount rc net url k st ∧
      (∀ u, u ≠ url →
        dictGetD (fetchPage rc net url k st).2.failedUrlCounts u 0 =
          dictGetD st.failedUrlCounts u 0) := by
  intro k st
  induction k, st using fetchPage.induct rc net url with
  | case1 k st h =>
    rw [fetchPage.eq_def, fetchFailCount.eq_def, if_pos h, if_pos h]
    simp
  | case2 k st h text hnet =>
    rw [fetchPage.eq_def, fetchFailCount.eq_def, if_neg h, if_neg h, hnet]
    simp
  | case3 k st h st2 hok hretry ih =>
    have hst2 : st2 = recordFailure st url := rfl
    rw [hst2] at ih
    have hunf : fetchPage rc net url k st =
        fetchPage rc net url (k + 1) (recordFailure st url) := by
      rw [fetchPage.eq_def, if_neg h]
      cases hnet : net url k with
      | ok text => exact absurd hnet (fun hh => hok text hh)
      | timeout => rw [hnet] at hretry; simp only []; rw [dif_pos hretry]
      | connError => rw [hnet] at hretry; simp only []; rw [dif_pos hretry]
      | httpError status => rw [hnet] at hretry; simp only []; rw [dif_pos hretry]
      | reqError => rw [hnet] at hretry; simp only []; rw [dif_pos hretry]
      | otherExc => rw [hnet] at hretry; simp [outcomeRetries] at hretry
    have hcnt : fetchFailCount rc net url k st =
        1 + fetchFailCount rc net url (k + 1) (recordFailure st url) := by
      rw [fetchFailCount.eq_def, if_neg h]
      cases hnet : net url k with
      | ok text => exact absurd hnet (fun hh => hok text hh)
      | timeout => rw [hnet] at hretry; simp only []; rw [dif_pos hretry]
      | connError => rw [hnet] at hretry; simp only []; rw [dif_pos hretry]
      | httpError status => rw [hnet] at hretry; simp only []; rw [dif_pos hretry]
      | reqError => rw [hnet] at hretry; simp only []; rw [dif_pos hretry]
      | otherExc => rw [hnet] at hretry; simp [outcomeRetries] at hretry
    rw [hunf, hcnt]
    refine ⟨ih.1, ?_, ?_, ?_⟩
    · rw [ih.2.1, recordFailure_totalFailed]
      omega
    · rw [ih.2.2.1, recordFailure_count_self]
      omega
    · intro u hu
      rw [ih.2.2.2 u hu, recordFailure_count_ne st url u hu]
  | case4 k st h hok hretry =>
    have hunf : fetchPage rc net url k st = (none, recordFailure st url) := by
      rw [fetchPage.eq_def, if_neg h]
      cases hnet : net url k with
      | ok text => exact absurd hnet (fun hh => hok text hh)
      | timeout => rw [hnet] at hretry; simp only []; rw [dif_neg hretry]
      | connError => rw [hnet] at hretry; simp only []; rw [dif_neg hretry]
      | httpError status => rw [hnet] at hretry; simp only []; rw [dif_neg hretry]
      | reqError => rw [hnet] at hretry; simp only []; rw [dif_neg hretry]
      | otherExc => simp only []; rw [dif_neg (by simp [outcomeRetries])]
    have hcnt : fetchFailCount rc net url k st = 1 := by
      rw [fetchFailCount.eq_def, if_neg h]
      cases hnet : net url k with
      | ok text => exact absurd hnet (fun hh => hok text hh)
      | timeout => rw [hnet] at hretry; simp only []; rw [dif_neg hretry]
      | connError => rw [hnet] at hretry; simp only []; rw [dif_neg hretry]
      | httpError status => rw [hnet] at hretry; simp only []; rw [dif_neg hretry]
      | reqError => rw [hnet] at hretry; simp only []; rw [dif_neg hretry]
      | otherExc => simp only []; rw [dif_neg (by simp [outcomeRetries])]
    rw [hunf, hcnt]
    exact ⟨⟨rfl, rfl, rfl, rfl, rfl⟩, recordFailure_totalFailed st url,
      recordFailure_count_self st url,
      fun u hu => recordFailure_count_ne st url u hu⟩

theorem fetchPage_counts_mono (rc : RetryConfig) (net : Net) (url : String)
    (k : Nat) (st : CrawlState) (u : String) :
    dictGetD st.failedUrlCounts u 0 ≤
      dictGetD (fetchPage rc net url k st).2.failedUrlCounts u 0 := by
  by_cases hu : u = url
  · subst hu
    rw [(fetchPage_effects rc net u k st).2.2.1]
    omega
  · rw [(fetchPage_effects rc net url k st).2.2.2 u hu]

theorem markUrlAsVisited_failedUrlCounts (st : CrawlState) (u : String) :
    (markUrlAsVisited st u).failedUrlCounts = st.failedUrlCounts := by
  unfold markUrlAsVisited
  dsimp only []
  split <;> rfl

theorem enqueueNewLinks_failedUrlCounts (links : List (String × Int)) :
    ∀ st : CrawlState, (enqueueNewLinks st links).failedUrlCounts = st.failedUrlCounts := by
  induction links with
  | nil => intro st; rfl
  | cons l ls ih =>
    intro st
    unfold enqueueNewLinks
    rw [List.foldl_cons]
    have h2 := ih (if isUrlVisited st l.1 then st
      else { st with urlQueue := st.urlQueue.put l.1 l.2 })
    unfold enqueueNewLinks at h2
    rw [h2]
    by_cases h : isUrlVisited st l.1 = true <;> simp [h]

/-- Failure counts never decrease across the crawl loop. -/
theorem crawlLoop_counts_mono_aux (rs : ReSearch) (rl : RawLinks)
    (cv : String → String → Option String) (net : Net) (rc : RetryConfig)
    (cfg : CrawlerConfig) :
    ∀ (fuel : Nat) (st : MainState) (u : String) (n : Nat),
      n ≤ dictGetD st.crawler.failedUrlCounts u 0 →
        n ≤ dictGetD (crawlLoop rs rl cv net rc cfg fuel st).crawler.failedUrlCounts u 0 := by
  intro fuel
  induction fuel with
  | zero => intro st u n hn; exact hn
  | succ fuel ih =>
    intro st u n hn
    rw [crawlLoop]
    cases hget : (URLPriorityQueue.get st.crawler.urlQueue).1 with
    | none => exact hn
    | some currentUrl =>
      dsimp only []
      by_cases hv : isUrlVisited
          { st with crawler :=
            { st.crawler with
              urlQueue := (URLPriorityQueue.get st.crawler.urlQueue).2 } }.crawler
          currentUrl = true
      · rw [if_pos hv]
        apply ih
        exact hn
      · rw [if_neg hv]
        cases hfp : fetchPage rc net currentUrl 0
            { st with crawler :=
              { st.crawler with
                urlQueue := (URLPriorityQueue.get st.crawler.urlQueue).2 } }.crawler with
        | mk res cr =>
          have hmono : dictGetD st.crawler.failedUrlCounts u 0 ≤
              dictGetD cr.failedUrlCounts u 0 := by
            have h2 := fetchPage_counts_mono rc net currentUrl 0
              { st with crawler :=
                { st.crawler with
                  urlQueue := (URLPriorityQueue.get st.crawler.urlQueue).2 } }.crawler u
            rw [hfp] at h2
            exact h2
          cases res with
          | none =>
            dsimp only []
            apply ih
            exact le_trans hn hmono
          | some html =>
            dsimp only []
            cases hc : cv currentUrl html with
            | some fp =>
              dsimp only []
              apply ih
              show n ≤ dictGetD (enqueueNewLinks _ _).failedUrlCounts u 0
              rw [enqueueNewLinks_failedUrlCounts]
              show n ≤ dictGetD (markUrlAsVisited cr currentUrl).failedUrlCounts u 0
              rw [markUrlAsVisited_failedUrlCounts]
              exact le_trans hn hmono
            | none =>
              dsimp only []
              apply ih
              show n ≤ dictGetD (enqueueNewLinks _ _).failedUrlCounts u 0
              rw [enqueueNewLinks_failedUrlCounts]
              show n ≤ dictGetD (markUrlAsVisited cr currentUrl).failedUrlCounts u 0
              rw [markUrlAsVisited_failedUrlCounts]
              exact le_trans hn hmono

theorem crawlLoop_counts_mono (rs : ReSearch) (rl : RawLinks)
    (cv : String → String → Option String) (net : Net) (rc : RetryConfig)
    (cfg : CrawlerConfig) (fuel : Nat) (st : MainState) (u : String) :
    dictGetD st.crawler.failedUrlCounts u 0 ≤
      dictGetD (crawlLoop rs rl cv net rc cfg fuel st).crawler.failedUrlCounts u 0 :=
  crawlLoop_counts_mono_aux rs rl cv net rc cfg fuel st u _ le_rfl

/-! ## C4: permanent auto-skip -/

/-- C4: once a URL's lifetime failure count has reached
`skip_after_failures`, every `_fetch_page` call returns `None` without
consulting the network and without changing any state (the threshold is
checked before the request); lifetime counts never decrease, neither
within a fetch call nor across the crawl loop; and on resume the
failure-count map is restored verbatim from the checkpoint, so the
permanence extends across a resumed run. -/
theorem auto_skip_permanent :
    (∀ (rc : RetryConfig) (st : CrawlState) (url : String) (k : Nat),
       shouldSkipUrl rc st url = true →
         ∀ net : Net, fetchPage rc net url k st = (none, st)) ∧
    (∀ (rc : RetryConfig) (net : Net) (url : String) (k : Nat) (st : CrawlState)
       (u : String),
       dictGetD st.failedUrlCounts u 0 ≤
         dictGetD (fetchPage rc net url k st).2.failedUrlCounts u 0) ∧
    (∀ (rs : ReSearch) (rl : RawLinks) (cv : String → String → Option String)
       (net : Net) (rc : RetryConfig) (cfg : CrawlerConfig) (fuel : Nat)
       (st : MainState) (u : String),
       dictGetD st.crawler.failedUrlCounts u 0 ≤
         dictGetD (crawlLoop rs rl cv net rc cfg fuel st).crawler.failedUrlCounts u 0) ∧
    (∀ (cfg : CrawlerConfig) (ckpt : RecoveryState),
       (resumeInit cfg ckpt).crawler.failedUrlCounts = ckpt.failedUrlCounts) := by
  refine ⟨?_, fetchPage_counts_mono, crawlLoop_counts_mono, fun cfg ckpt => rfl⟩
  intro rc st url k h net
  rw [fetchPage.eq_def, if_pos h]

/-- Witness for C4: with `skip_after_failures = 0` a fresh URL is already
at the threshold, and the fetch returns `None` leaving the state intact
even though the network would answer. -/
theorem auto_skip_permanent_witness :
    shouldSkipUrl { skipAfterFailures := 0 } CrawlState.fresh "u" = true ∧
    fetchPage { skipAfterFailures := 0 } (fun _ _ => .ok "page") "u" 0 CrawlState.fresh =
      (none, CrawlState.fresh) := by
  have h : shouldSkipUrl { skipAfterFailures := 0 } CrawlState.fresh "u" = true := by decide
  exact ⟨h, auto_skip_permanent.1 _ _ _ 0 h _⟩

/-! ## C9: total_failed counts attempts, not calls -/

/-- C9, counterexample: with every attempt timing out and the default
`max_retries = 3`, a *single* `_fetch_page` call performs three failed
attempts and increments `total_failed` by three (from 0 to 3), not by at
most one; the lifetime counter for the URL also rises by three. -/
theorem total_failed_per_call_counterexample :
    (fetchPage ({} : RetryConfig) (fun _ _ => .timeout) "u" 0 CrawlState.fresh).1 = none ∧
    ((fetchPage ({} : RetryConfig) (fun _ _ => .timeout) "u" 0 CrawlState.fresh).2).totalFailed = 3 ∧
    CrawlState.fresh.totalFailed = 0 ∧
    dictGetD ((fetchPage ({} : RetryConfig) (fun _ _ => .timeout) "u" 0
        CrawlState.fresh).2).failedUrlCounts "u" 0 = 3 := by
  refine ⟨?_, ?_, rfl, ?_⟩ <;>
    simp [fetchPage, fetchFailCount, shouldSkipUrl, dictGetD, dictFind, recordFailure,
      outcomeRetries, dictSet, CrawlState.fresh]

/-- C9, amended: `total_failed` counts every failed attempt — a single
`_fetch_page` call increments it once per failed attempt, including
attempts that are retried within the same call, and the lifetime per-URL
failure counter rises by exactly the same number, while the per-call
retry budget (`retry_count` against `max_retries`) is tracked separately
per call; other URLs' lifetime counters are untouched. -/
theorem total_failed_counts_attempts :
    ∀ (rc : RetryConfig) (net : Net) (url : String) (k : Nat) (st : CrawlState),
      ((fetchPage rc net url k st).2).totalFailed =
        st.totalFailed + fetchFailCount rc net url k st ∧
      dictGetD ((fetchPage rc net url k st).2).failedUrlCounts url 0 =
        dictGetD st.failedUrlCounts url 0 + fetchFailCount rc net url k st ∧
      (∀ u, u ≠ url →
        dictGetD ((fetchPage rc net url k st).2).failedUrlCounts u 0 =
          dictGetD st.failedUrlCounts u 0) :=
  fun rc net url k st => (fetchPage_effects rc net url k st).2

/-- Witness for C9's amended theorem: concrete timing-out network, with
the unrelated URL "v" untouched. -/
theorem total_failed_counts_attempts_witness :
    ((fetchPage ({} : RetryConfig) (fun _ _ => .timeout) "u" 0 CrawlState.fresh).2).totalFailed =
      CrawlState.fresh.totalFailed +
        fetchFailCount ({} : RetryConfig) (fun _ _ => .timeout) "u" 0 CrawlState.fresh ∧
    dictGetD ((fetchPage ({} : RetryConfig) (fun _ _ => .timeout) "u" 0
        CrawlState.fresh).2).failedUrlCounts "v" 0 =
      dictGetD CrawlState.fresh.failedUrlCounts "v" 0 := by
  refine ⟨(total_failed_counts_attempts {} _ "u" 0 CrawlState.fresh).1, ?_⟩
  exact (total_failed_counts_attempts {} _ "u" 0 CrawlState.fresh).2.2 "v" (by decide)

/-! ## C1: no duplicate conversions -/

theorem enqueueNewLinks_normalizedUrls (links : List (String × Int)) :
    ∀ st : CrawlState, (enqueueNewLinks st links).normalizedUrls = st.normalizedUrls := by
  induction links with
  | nil => intro st; rfl
  | cons l ls ih =>
    intro st
    unfold enqueueNewLinks
    rw [List.foldl_cons]
    have h2 := ih (if isUrlVisited st l.1 then st
      else { st with urlQueue := st.urlQueue.put l.1 l.2 })
    unfold enqueueNewLinks at h2
    rw [h2]
    by_cases h : isUrlVisited st l.1 = true <;> simp [h]

theorem markUrlAsVisited_insert (st : CrawlState) (u : String)
    (h : (dictFind st.normalizedUrls (normalizeUrlS u)).isSome = false) :
    (markUrlAsVisited st u).normalizedUrls =
      dictSet st.normalizedUrls (normalizeUrlS u) u := by
  unfold markUrlAsVisited
  simp [h]

/-- Invariant carried through the crawl loop: every URL already handed to
the converter in this run has its normalized form in the visited map, and
the normalized forms of the conversion trace are pairwise distinct. -/
theorem crawlLoop_trace_aux (rs : ReSearch) (rl : RawLinks)
    (cv : String → String → Option String) (net : Net) (rc : RetryConfig)
    (cfg : CrawlerConfig) :
    ∀ (fuel : Nat) (st : MainState),
      ((∀ u ∈ st.convertedTrace,
          (dictFind st.crawler.normalizedUrls (normalizeUrlS u)).isSome = true) ∧
        (st.convertedTrace.map normalizeUrlS).Nodup) →
      ((∀ u ∈ (crawlLoop rs rl cv net rc cfg fuel st).convertedTrace,
          (dictFind (crawlLoop rs rl cv net rc cfg fuel st).crawler.normalizedUrls
            (normalizeUrlS u)).isSome = true) ∧
        ((crawlLoop rs rl cv net rc cfg fuel st).convertedTrace.map normalizeUrlS).Nodup) := by
  intro fuel
  induction fuel with
  | zero => intro st h; exact h
  | succ fuel ih =>
    intro st hInv
    rw [crawlLoop]
    cases hget : (URLPriorityQueue.get st.crawler.urlQueue).1 with
    | none => exact hInv
    | some currentUrl =>
      dsimp only []
      by_cases hv : isUrlVisited
          { st with crawler :=
            { st.crawler with
              urlQueue := (URLPriorityQueue.get st.crawler.urlQueue).2 } }.crawler
          currentUrl = true
      · rw [if_pos hv]
        apply ih
        exact hInv
      · rw [if_neg hv]
        have hv0 : (dictFind st.crawler.normalizedUrls (normalizeUrlS currentUrl)).isSome
            = false := by
          have h0 : ¬ ((dictFind st.crawler.normalizedUrls
              (normalizeUrlS currentUrl)).isSome = true) := hv
          exact Bool.eq_false_iff.mpr h0
        cases hfp : fetchPage rc net currentUrl 0
            { st with crawler :=
              { st.crawler with
                urlQueue := (URLPriorityQueue.get st.crawler.urlQueue).2 } }.crawler with
        | mk res cr =>
          have hcr : cr.normalizedUrls = st.crawler.normalizedUrls := by
            have h2 := (fetchPage_effects rc net currentUrl 0
              { st with crawler :=
                { st.crawler with
                  urlQueue := (URLPriorityQueue.get st.crawler.urlQueue).2 } }.crawler).1.1
            rw [hfp] at h2
            exact h2
          cases res with
          | none =>
            dsimp only []
            apply ih
            refine ⟨?_, hInv.2⟩
            intro u hu
            have h3 : (dictFind st.crawler.normalizedUrls (normalizeUrlS u)).isSome
                = true := hInv.1 u hu
            show (dictFind cr.normalizedUrls (normalizeUrlS u)).isSome = true
            rw [hcr]
            exact h3
          | some html =>
            dsimp only []
            have hcrv : (dictFind cr.normalizedUrls (normalizeUrlS currentUrl)).isSome
                = false := by rw [hcr]; exact hv0
            have hmark : (markUrlAsVisited cr currentUrl).normalizedUrls =
                dictSet cr.normalizedUrls (normalizeUrlS currentUrl) currentUrl :=
              markUrlAsVisited_insert cr currentUrl hcrv
            have hA : ∀ u ∈ st.convertedTrace ++ [currentUrl],
                (dictFind (markUrlAsVisited cr currentUrl).normalizedUrls
                  (normalizeUrlS u)).isSome = true := by
              intro u hu
              rw [hmark]
              rcases List.mem_append.mp hu with hu1 | hu2
              · apply dictFind_isSome_dictSet
                rw [hcr]
                exact hInv.1 u hu1
              · have : u = currentUrl := by simpa using hu2
                subst this
                rw [dictFind_dictSet_self]
                rfl
            have hB : ((st.convertedTrace ++ [currentUrl]).map normalizeUrlS).Nodup := by
              rw [List.map_append]
              rw [List.nodup_append]
              refine ⟨hInv.2, by simp, ?_⟩
              intro a ha hb
              simp only [List.map_cons, List.map_nil, List.mem_singleton] at hb
              subst hb
              rcases List.mem_map.mp ha with ⟨u, hu, hequ⟩
              have h3 := hInv.1 u hu
              rw [hequ] at h3
              rw [h3] at hv0
              exact Bool.noConfusion hv0
            cases hc : cv currentUrl html with
            | some fp =>
              dsimp only []
              apply ih
              constructor
              · intro u hu
                show (dictFind (enqueueNewLinks (markUrlAsVisited cr currentUrl) _).normalizedUrls
                    (normalizeUrlS u)).isSome = true
                rw [enqueueNewLinks_normalizedUrls]
                exact hA u hu
              · exact hB
            | none =>
              dsimp only []
              apply ih
              constructor
              · intro u hu
                show (dictFind (enqueueNewLinks (markUrlAsVisited cr currentUrl) _).normalizedUrls
                    (normalizeUrlS u)).isSome = true
                rw [enqueueNewLinks_normalizedUrls]
                exact hA u hu
              · exact hB

theorem foldl_dictSet_isSome (vs : List String) :
    ∀ (m : List (String × String)) (k : String),
      (dictFind m k).isSome = true →
      (dictFind (vs.foldl (fun m u => dictSet m (normalizeUrlS u) u) m) k).isSome = true := by
  induction vs with
  | nil => intro m k h; exact h
  | cons v vs ih =>
    intro m k h
    rw [List.foldl_cons]
    exact ih _ k (dictFind_isSome_dictSet _ _ _ _ h)

theorem rebuildNormalized_mem (vs : List String) :
    ∀ (u : String), u ∈ vs →
      (dictFind (rebuildNormalized vs) (normalizeUrlS u)).isSome = true := by
  have haux : ∀ (vs : List String) (m : List (String × String)) (u : String), u ∈ vs →
      (dictFind (vs.foldl (fun m u => dictSet m (normalizeUrlS u) u) m)
        (normalizeUrlS u)).isSome = true := by
    intro vs
    induction vs with
    | nil => intro m u h; exact absurd h (List.not_mem_nil u)
    | cons v vs ih =>
      intro m u h
      rw [List.foldl_cons]
      rcases List.mem_cons.mp h with rfl | h2
      · apply foldl_dictSet_isSome
        rw [dictFind_dictSet_self]
        rfl
      · exact ih _ u h2
  intro u hu
  exact haux vs [] u hu

/-- C1: in any crawl run — fresh or resumed from a checkpoint — the
sequence of URLs handed to the content converter has pairwise-distinct
normalized forms (each page is converted at most once per run), because a
dequeued URL is skipped when its normalized form is already in the
visited map and conversion marks it first; and on resume the visited map
is rebuilt from the checkpoint's visited set before the queue is
re-seeded, so every checkpointed page tests as already visited. -/
theorem no_duplicate_conversions :
    (∀ (rs : ReSearch) (rl : RawLinks) (cv : String → String → Option String)
       (net : Net) (rc : RetryConfig) (cfg : CrawlerConfig)
       (resume : Option RecoveryState) (fuel : Nat),
       ((crawlAndConvert rs rl cv net rc cfg resume fuel).convertedTrace.map
         normalizeUrlS).Nodup) ∧
    (∀ (cfg : CrawlerConfig) (ckpt : RecoveryState) (u : String),
       u ∈ ckpt.visitedUrls → isUrlVisited (resumeInit cfg ckpt).crawler u = true) := by
  constructor
  · intro rs rl cv net rc cfg resume fuel
    have hInit : ∀ st0 : MainState, st0.convertedTrace = [] →
        ((∀ u ∈ st0.convertedTrace,
            (dictFind st0.crawler.normalizedUrls (normalizeUrlS u)).isSome = true) ∧
          (st0.convertedTrace.map normalizeUrlS).Nodup) := by
      intro st0 h
      rw [h]
      exact ⟨fun u hu => absurd hu (List.not_mem_nil u), by simp⟩
    cases resume with
    | none =>
      exact (crawlLoop_trace_aux rs rl cv net rc cfg fuel (freshInit cfg)
        (hInit _ rfl)).2
    | some ckpt =>
      exact (crawlLoop_trace_aux rs rl cv net rc cfg fuel (resumeInit cfg ckpt)
        (hInit _ rfl)).2
  · intro cfg ckpt u hu
    show (dictFind (rebuildNormalized ckpt.visitedUrls) (normalizeUrlS u)).isSome = true
    exact rebuildNormalized_mem ckpt.visitedUrls u hu

/-- Witness for C1: a checkpointed page is recognized as visited after the
resume initialization. -/
theorem no_duplicate_conversions_witness :
    "http://a" ∈ ({ visitedUrls := ["http://a"] } : RecoveryState).visitedUrls ∧
    isUrlVisited (resumeInit ⟨"http://a", "http://a", []⟩
      { visitedUrls := ["http://a"] }).crawler "http://a" = true := by
  have hm : "http://a" ∈ ({ visitedUrls := ["http://a"] } : RecoveryState).visitedUrls := by
    simp
  exact ⟨hm, no_duplicate_conversions.2 _ _ _ hm⟩

/-! ## C6 and C7: checkpoint round-trip and resume gating -/

theorem decStrList_map_str (l : List String) :
    decStrList (.arr (l.map .str)) = some l := by
  induction l with
  | nil => rfl
  | cons s l ih =>
    simp only [decStrList] at ih ⊢
    rw [List.map_cons, List.mapM_cons]
    simp only [decStr]
    rw [ih]
    rfl

theorem decCountMap_map (l : List (String × Nat)) :
    decCountMap (.obj (l.map fun p => (p.1, .num p.2))) = some l := by
  induction l with
  | nil => rfl
  | cons p l ih =>
    simp only [decCountMap] at ih ⊢
    rw [List.map_cons, List.mapM_cons]
    have h1 : decCount (Json.num (p.2 : Int)) = some p.2 := by
      simp [decCount]
    dsimp only []
    rw [h1, ih]
    rfl

theorem fromDict_toDict (s : RecoveryState) : fromDict (toDict s) = some s := by
  simp [fromDict, toDict, jGetD, jGet, dictFind, decStr, decInt,
    decStrList_map_str, decCountMap_map]

theorem saveState_writes (md5 : String → String) (dumps : Json → String)
    (cfg : ToolConfig) (now : String) (counter : Nat) (fs : FS) (su : String)
    (vu : List String) (fc : List (String × Nat)) (pc sc flc : Int)
    (cu : List String) (h1 : cfg.recovery.enableRecovery = true)
    (h2 : (counter + 1) % cfg.recovery.saveInterval = 0) :
    (saveState md5 dumps cfg now counter fs su vu fc pc sc flc cu).2 =
      runOps (saveOps cfg.recovery.recoveryFile
        (toDict ⟨su, vu, fc, pc, sc, flc, cu, now, calcConfigChecksum md5 dumps cfg⟩)) fs := by
  unfold saveState
  rw [if_neg (by simp [h1]), if_neg (by simp [h2])]

/-- C6, amended: an *effective* save — recovery enabled and the
incremented call counter hitting a multiple of `save_interval` (plain
`save_state` calls in between are rate-limited no-ops) — followed by
`load_state` under the same configuration succeeds and reproduces the
saved visited set, failure-count map, counters and ordered crawled-URL
list exactly. -/
theorem checkpoint_roundtrip :
    ∀ (md5 : String → String) (dumps : Json → String) (cfg : ToolConfig)
      (now : String) (counter : Nat) (fs : FS) (su : String) (vu : List String)
      (fc : List (String × Nat)) (pc sc flc : Int) (cu : List String),
      cfg.recovery.enableRecovery = true →
      (counter + 1) % cfg.recovery.saveInterval = 0 →
      loadState md5 dumps cfg
          (saveState md5 dumps cfg now counter fs su vu fc pc sc flc cu).2 =
        some ⟨su, vu, fc, pc, sc, flc, cu, now, calcConfigChecksum md5 dumps cfg⟩ := by
  intro md5 dumps cfg now counter fs su vu fc pc sc flc cu h1 h2
  rw [saveState_writes md5 dumps cfg now counter fs su vu fc pc sc flc cu h1 h2]
  have hfile : runOps (saveOps cfg.recovery.recoveryFile
      (toDict ⟨su, vu, fc, pc, sc, flc, cu, now, calcConfigChecksum md5 dumps cfg⟩)) fs
      cfg.recovery.recoveryFile =
      .stored (toDict ⟨su, vu, fc, pc, sc, flc, cu, now, calcConfigChecksum md5 dumps cfg⟩) :=
    runOps_saveOps_self _ _ _
  have hcan : canResume md5 dumps cfg (runOps (saveOps cfg.recovery.recoveryFile
      (toDict ⟨su, vu, fc, pc, sc, flc, cu, now, calcConfigChecksum md5 dumps cfg⟩)) fs)
      = true := by
    unfold canResume hasRecoveryFile
    rw [hfile]
    simp only [h1, Bool.and_true, Bool.true_and]
    unfold toDict checksumMatches jGet dictFind
    simp
  unfold loadState
  rw [if_pos hcan, hfile]
  exact fromDict_toDict _

/-- Witness for C6 at concrete inputs (save interval 1 makes the first
save effective). -/
theorem checkpoint_roundtrip_witness :
    ((⟨.obj [], .obj [], .obj [], .obj [], { saveInterval := 1 }⟩ :
        ToolConfig)).recovery.enableRecovery = true ∧
    (0 + 1) % ((⟨.obj [], .obj [], .obj [], .obj [], { saveInterval := 1 }⟩ :
        ToolConfig)).recovery.saveInterval = 0 ∧
    loadState id (fun _ => "CS")
        (⟨.obj [], .obj [], .obj [], .obj [], { saveInterval := 1 }⟩ : ToolConfig)
        (saveState id (fun _ => "CS")
          (⟨.obj [], .obj [], .obj [], .obj [], { saveInterval := 1 }⟩ : ToolConfig)
          "ts" 0 (fun _ => .absent) "s" ["u"] [("u", 2)] 3 2 1 ["u"]).2 =
      some ⟨"s", ["u"], [("u", 2)], 3, 2, 1, ["u"], "ts",
        calcConfigChecksum id (fun _ => "CS")
          (⟨.obj [], .obj [], .obj [], .obj [], { saveInterval := 1 }⟩ : ToolConfig)⟩ := by
  refine ⟨rfl, by decide, ?_⟩
  exact checkpoint_roundtrip id (fun _ => "CS") _ "ts" 0 _ "s" ["u"] [("u", 2)] 3 2 1 ["u"]
    rfl (by decide)

/-- C6, counterexample: a plain `save_state` call is rate-limited — with
the default `save_interval = 10` and a fresh manager the first call
writes nothing, so the subsequent `load_state` fails instead of
reproducing the saved state. -/
theorem checkpoint_roundtrip_counterexample :
    (saveState id (fun _ => "CS")
        (⟨.obj [], .obj [], .obj [], .obj [], {}⟩ : ToolConfig)
        "ts" 0 (fun _ => .absent) "s" ["u"] [] 1 1 0 ["u"]).2 =
      (fun _ => FileContent.absent) ∧
    loadState id (fun _ => "CS")
        (⟨.obj [], .obj [], .obj [], .obj [], {}⟩ : ToolConfig)
        (saveState id (fun _ => "CS")
          (⟨.obj [], .obj [], .obj [], .obj [], {}⟩ : ToolConfig)
          "ts" 0 (fun _ => .absent) "s" ["u"] [] 1 1 0 ["u"]).2 = none := by
  exact ⟨rfl, rfl⟩

/-- C7, counterexample: `can_resume` additionally requires
`enable_recovery`; with recovery disabled it returns `False` even though
the checkpoint file exists and its embedded checksum equals the current
configuration's, contradicting the claimed "if and only if". -/
theorem can_resume_iff_counterexample :
    canResume id (fun _ => "CS")
        (⟨.obj [], .obj [], .obj [], .obj [], { enableRecovery := false }⟩ : ToolConfig)
        (fun q => if q = "./recovery_state.json" then
          .stored (.obj [("config_checksum", .str "CS")]) else .absent) = false ∧
    (fun q => if q = "./recovery_state.json" then
        FileContent.stored (.obj [("config_checksum", .str "CS")]) else .absent)
      "./recovery_state.json" = .stored (.obj [("config_checksum", .str "CS")]) ∧
    checksumMatches [("config_checksum", .str "CS")]
      (calcConfigChecksum id (fun _ => "CS")
        (⟨.obj [], .obj [], .obj [], .obj [], { enableRecovery := false }⟩ : ToolConfig))
      = true := by
  refine ⟨rfl, by simp, rfl⟩

/-- C7, amended: `can_resume()` is true iff recovery is enabled, the
checkpoint file exists, it parses as a JSON object, and its embedded
configuration checksum equals the current configuration's; `load_state`
returns failure whenever `can_resume` is false — in particular when the
file is missing or corrupt — and, absent a hash collision between the
two serialized configurations, whenever any crawl-relevant field (such
as `allowed_domain` inside `target_site`) changed since an effective
save wrote the file. -/
theorem can_resume_characterization :
    (∀ (md5 : String → String) (dumps : Json → String) (cfg : ToolConfig) (fs : FS),
       canResume md5 dumps cfg fs = true ↔
         (cfg.recovery.enableRecovery = true ∧
          (∃ kvs, fs cfg.recovery.recoveryFile = .stored (.obj kvs) ∧
            checksumMatches kvs (calcConfigChecksum md5 dumps cfg) = true))) ∧
    (∀ (md5 : String → String) (dumps : Json → String) (cfg : ToolConfig) (fs : FS),
       canResume md5 dumps cfg fs = false → loadState md5 dumps cfg fs = none) ∧
    (∀ (md5 : String → String) (dumps : Json → String) (cfg : ToolConfig) (fs : FS),
       fs cfg.recovery.recoveryFile = .absent → loadState md5 dumps cfg fs = none) ∧
    (∀ (md5 : String → String) (dumps : Json → String) (cfg : ToolConfig) (fs : FS),
       fs cfg.recovery.recoveryFile = .corrupted → loadState md5 dumps cfg fs = none) ∧
    (∀ (md5 : String → String) (dumps : Json → String) (cfg1 cfg2 : ToolConfig)
       (now : String) (counter : Nat) (fs : FS) (su : String) (vu : List String)
       (fc : List (String × Nat)) (pc sc flc : Int) (cu : List String),
       cfg2.recovery = cfg1.recovery →
       cfg1.recovery.enableRecovery = true →
       (counter + 1) % cfg1.recovery.saveInterval = 0 →
       (md5 (dumps (keyConfigJson cfg2)) = md5 (dumps (keyConfigJson cfg1)) →
         keyConfigJson cfg2 = keyConfigJson cfg1) →
       keyConfigJson cfg2 ≠ keyConfigJson cfg1 →
       loadState md5 dumps cfg2
         (saveState md5 dumps cfg1 now counter fs su vu fc pc sc flc cu).2 = none) := by
  have hload : ∀ (md5 : String → String) (dumps : Json → String) (cfg : ToolConfig)
      (fs : FS), canResume md5 dumps cfg fs = false → loadState md5 dumps cfg fs = none := by
    intro md5 dumps cfg fs h
    unfold loadState
    rw [h]
    simp
  have hiff : ∀ (md5 : String → String) (dumps : Json → String) (cfg : ToolConfig)
      (fs : FS), canResume md5 dumps cfg fs = true ↔
        (cfg.recovery.enableRecovery = true ∧
         (∃ kvs, fs cfg.recovery.recoveryFile = .stored (.obj kvs) ∧
           checksumMatches kvs (calcConfigChecksum md5 dumps cfg) = true)) := by
    intro md5 dumps cfg fs
    unfold canResume hasRecoveryFile
    cases hf : fs cfg.recovery.recoveryFile with
    | absent =>
      constructor
      · intro h; simp at h
      · rintro ⟨he, kvs, hk, hm⟩; exact FileContent.noConfusion hk
    | corrupted =>
      constructor
      · intro h; simp at h
      · rintro ⟨he, kvs, hk, hm⟩; exact FileContent.noConfusion hk
    | stored j =>
      cases j with
      | obj kvs =>
        constructor
        · intro h
          have h2 := (Bool.and_eq_true _ _).mp h
          have h3 := (Bool.and_eq_true _ _).mp h2.1
          exact ⟨h3.2, ⟨kvs, rfl, h2.2⟩⟩
        · rintro ⟨he, kvs2, hk2, hm⟩
          have hkk : kvs2 = kvs := by
            injection hk2 with h4
            injection h4 with h5
            exact h5.symm
          subst hkk
          simp [he, hm]
      | str s =>
        constructor
        · intro h; simp at h
        · rintro ⟨he, kvs, hk, hm⟩
          injection hk with h4
          exact Json.noConfusion h4
      | num n =>
        constructor
        · intro h; simp at h
        · rintro ⟨he, kvs, hk, hm⟩
          injection hk with h4
          exact Json.noConfusion h4
      | arr l =>
        constructor
        · intro h; simp at h
        · rintro ⟨he, kvs, hk, hm⟩
          injection hk with h4
          exact Json.noConfusion h4
  refine ⟨hiff, hload, ?_, ?_, ?_⟩
  · intro md5 dumps cfg fs h
    apply hload
    unfold canResume hasRecoveryFile
    rw [h]
    simp
  · intro md5 dumps cfg fs h
    apply hload
    unfold canResume hasRecoveryFile
    rw [h]
    simp
  · intro md5 dumps cfg1 cfg2 now counter fs su vu fc pc sc flc cu hrec hen hint hcol hne
    rw [saveState_writes md5 dumps cfg1 now counter fs su vu fc pc sc flc cu hen hint]
    apply hload
    have hfile : runOps (saveOps cfg1.recovery.recoveryFile
        (toDict ⟨su, vu, fc, pc, sc, flc, cu, now, calcConfigChecksum md5 dumps cfg1⟩)) fs
        cfg1.recovery.recoveryFile =
        .stored (toDict ⟨su, vu, fc, pc, sc, flc, cu, now,
          calcConfigChecksum md5 dumps cfg1⟩) := runOps_saveOps_self _ _ _
    unfold canResume hasRecoveryFile
    rw [hrec, hfile]
    have hmm : checksumMatches
        [("start_url", Json.str su),
         ("visited_urls", Json.arr (vu.map Json.str)),
         ("failed_url_counts", Json.obj (fc.map fun p => (p.1, Json.num p.2))),
         ("processed_count", Json.num pc),
         ("success_count", Json.num sc),
         ("failed_count", Json.num flc),
         ("crawled_urls", Json.arr (cu.map Json.str)),
         ("timestamp", Json.str now),
         ("config_checksum", Json.str (calcConfigChecksum md5 dumps cfg1))]
        (calcConfigChecksum md5 dumps cfg2) = false := by
      have hred : checksumMatches
          [("start_url", Json.str su),
           ("visited_urls", Json.arr (vu.map Json.str)),
           ("failed_url_counts", Json.obj (fc.map fun p => (p.1, Json.num p.2))),
           ("processed_count", Json.num pc),
           ("success_count", Json.num sc),
           ("failed_count", Json.num flc),
           ("crawled_urls", Json.arr (cu.map Json.str)),
           ("timestamp", Json.str now),
           ("config_checksum", Json.str (calcConfigChecksum md5 dumps cfg1))]
          (calcConfigChecksum md5 dumps cfg2) =
          decide (calcConfigChecksum md5 dumps cfg1 =
            calcConfigChecksum md5 dumps cfg2) := rfl
      rw [hred, decide_eq_false_iff_not]
      intro hcs
      exact hne (hcol hcs.symm)
    unfold toDict
    simp [hen, hmm]

/-- Witness for C7's amended theorem: changing `allowed_domain` inside
`target_site` makes the load of an effectively saved checkpoint fail
(the hash is instantiated with a function that separates the two
serialized configurations). -/
theorem can_resume_characterization_witness :
    loadState id
      (fun j => match j with
        | .obj (("target_site", .obj (("allowed_domain", .str s) :: _)) :: _) => s
        | _ => "")
      (⟨.obj [("allowed_domain", .str "https://b")], .obj [], .obj [], .obj [],
        { saveInterval := 1 }⟩ : ToolConfig)
      (saveState id
        (fun j => match j with
          | .obj (("target_site", .obj (("allowed_domain", .str s) :: _)) :: _) => s
          | _ => "")
        (⟨.obj [("allowed_domain", .str "https://a")], .obj [], .obj [], .obj [],
          { saveInterval := 1 }⟩ : ToolConfig)
        "ts" 0 (fun _ => .absent) "s" [] [] 0 0 0 []).2 = none := by
  apply can_resume_characterization.2.2.2.2
  · rfl
  · rfl
  · decide
  · intro h
    simp [keyConfigJson] at h
  · intro h
    simp [keyConfigJson] at h

/-! ## C5: URL normalization — character-level lemmas -/

theorem char_eq_of_toNat (c d : Char) (h : c.toNat = d.toNat) : c = d := by
  apply Char.eq_of_val_eq
  apply UInt32.toNat.inj
  exact h

theorem char_eq_iff_toNat (c d : Char) : c = d ↔ c.toNat = d.toNat :=
  ⟨fun h => congrArg Char.toNat h, char_eq_of_toNat c d⟩

theorem char_le_iff (a c : Char) : a ≤ c ↔ a.toNat ≤ c.toNat := by
  rw [Char.le_def]
  exact Iff.rfl

theorem lowerChar_toNat (c : Char) :
    (lowerChar c).toNat =
      if 65 ≤ c.toNat ∧ c.toNat ≤ 90 then c.toNat + 32 else c.toNat := by
  unfold lowerChar
  by_cases h : 'A' ≤ c ∧ c ≤ 'Z'
  · have h1 : 65 ≤ c.toNat := (char_le_iff 'A' c).mp h.1
    have h2 : c.toNat ≤ 90 := (char_le_iff c 'Z').mp h.2
    rw [if_pos h, if_pos ⟨h1, h2⟩]
    unfold Char.ofNat
    rw [dif_pos (Or.inl (by omega))]
    rfl
  · have h3 : ¬ (65 ≤ c.toNat ∧ c.toNat ≤ 90) := by
      intro hc
      exact h ⟨(char_le_iff 'A' c).mpr hc.1, (char_le_iff c 'Z').mpr hc.2⟩
    rw [if_neg h, if_neg h3]

theorem lowerChar_lowerChar (c : Char) : lowerChar (lowerChar c) = lowerChar c := by
  apply char_eq_of_toNat
  rw [lowerChar_toNat (lowerChar c), lowerChar_toNat c]
  split_ifs <;> omega

theorem lowerChar_eq_iff (c d : Char) (hd : ¬ (97 ≤ d.toNat ∧ d.toNat ≤ 122))
    (hd2 : ¬ (65 ≤ d.toNat ∧ d.toNat ≤ 90)) : lowerChar c = d ↔ c = d := by
  rw [char_eq_iff_toNat, char_eq_iff_toNat, lowerChar_toNat]
  split_ifs with hc
  · omega
  · exact Iff.rfl

theorem lowerChar_toNat_le32 (c : Char) : (lowerChar c).toNat ≤ 32 ↔ c.toNat ≤ 32 := by
  rw [lowerChar_toNat]
  split_ifs <;> omega

theorem isAsciiAlpha_iff (c : Char) : isAsciiAlpha c = true ↔
    (97 ≤ c.toNat ∧ c.toNat ≤ 122 ∨ 65 ≤ c.toNat ∧ c.toNat ≤ 90) := by
  unfold isAsciiAlpha
  rw [decide_eq_true_eq, char_le_iff, char_le_iff, char_le_iff, char_le_iff]
  exact Iff.rfl

theorem isAsciiDigit_iff (c : Char) : isAsciiDigit c = true ↔
    (48 ≤ c.toNat ∧ c.toNat ≤ 57) := by
  unfold isAsciiDigit
  rw [decide_eq_true_eq, char_le_iff, char_le_iff]
  exact Iff.rfl

theorem isSchemeChar_iff (c : Char) : isSchemeChar c = true ↔
    (97 ≤ c.toNat ∧ c.toNat ≤ 122 ∨ 65 ≤ c.toNat ∧ c.toNat ≤ 90) ∨
    (48 ≤ c.toNat ∧ c.toNat ≤ 57) ∨ c.toNat = 43 ∨ c.toNat = 45 ∨ c.toNat = 46 := by
  unfold isSchemeChar
  rw [decide_eq_true_eq]
  rw [isAsciiAlpha_iff, isAsciiDigit_iff, char_eq_iff_toNat, char_eq_iff_toNat,
    char_eq_iff_toNat]
  exact Iff.rfl

theorem isSchemeChar_lowerChar (c : Char) :
    isSchemeChar (lowerChar c) = isSchemeChar c := by
  rw [Bool.eq_iff_iff, isSchemeChar_iff, isSchemeChar_iff, lowerChar_toNat]
  split_ifs <;> omega

theorem isAsciiAlpha_lowerChar (c : Char) :
    isAsciiAlpha (lowerChar c) = isAsciiAlpha c := by
  rw [Bool.eq_iff_iff, isAsciiAlpha_iff, isAsciiAlpha_iff, lowerChar_toNat]
  split_ifs <;> omega

theorem isNetlocEnd_iff (c : Char) : isNetlocEnd c = true ↔
    (c.toNat = 47 ∨ c.toNat = 63 ∨ c.toNat = 35) := by
  unfold isNetlocEnd
  rw [decide_eq_true_eq, char_eq_iff_toNat, char_eq_iff_toNat, char_eq_iff_toNat]
  exact Iff.rfl

theorem isNetlocEnd_lowerChar (c : Char) :
    isNetlocEnd (lowerChar c) = isNetlocEnd c := by
  rw [Bool.eq_iff_iff, isNetlocEnd_iff, isNetlocEnd_iff, lowerChar_toNat]
  split_ifs <;> omega

/-! ## C5: list-level lemmas -/

theorem takeWhile_all {p : Char → Bool} : ∀ {l : Url}, (∀ c ∈ l, p c = true) →
    l.takeWhile p = l := by
  intro l
  induction l with
  | nil => intro h; rfl
  | cons c t ih =>
    intro h
    rw [List.takeWhile_cons, if_pos (h c (List.mem_cons_self c t))]
    rw [ih fun d hd => h d (List.mem_cons_of_mem c hd)]

theorem takeWhile_append_all {p : Char → Bool} : ∀ {a b : Url},
    (∀ c ∈ a, p c = true) → (a ++ b).takeWhile p = a ++ b.takeWhile p := by
  intro a
  induction a with
  | nil => intro b h; rfl
  | cons c t ih =>
    intro b h
    rw [List.cons_append, List.takeWhile_cons, if_pos (h c (List.mem_cons_self c t))]
    rw [ih fun d hd => h d (List.mem_cons_of_mem c hd)]
    rfl

theorem takeWhile_cons_false {p : Char → Bool} {c : Char} (t : Url)
    (h : p c = false) : (c :: t).takeWhile p = [] := by
  rw [List.takeWhile_cons, h]
  rfl

theorem mem_takeWhile_mem {p : Char → Bool} {l : Url} {c : Char}
    (h : c ∈ l.takeWhile p) : c ∈ l :=
  (List.takeWhile_sublist p).subset h

theorem mem_takeWhile_prop {p : Char → Bool} : ∀ {l : Url} {c : Char},
    c ∈ l.takeWhile p → p c = true := by
  intro l
  induction l with
  | nil => intro c h; exact absurd h (List.not_mem_nil c)
  | cons d t ih =>
    intro c h
    rw [List.takeWhile_cons] at h
    by_cases hd : p d = true
    · rw [if_pos hd] at h
      rcases List.mem_cons.mp h with rfl | h2
      · exact hd
      · exact ih h2
    · rw [if_neg hd] at h
      exact absurd h (List.not_mem_nil c)

theorem takeWhile_take_comm {p : Char → Bool} : ∀ (l : Url) (n : Nat),
    (l.take n).takeWhile p = (l.takeWhile p).take n := by
  intro l
  induction l with
  | nil => intro n; simp
  | cons c t ih =>
    intro n
    cases n with
    | zero => simp
    | succ n =>
      by_cases h : p c = true
      · rw [List.take_succ_cons, List.takeWhile_cons, if_pos h, List.takeWhile_cons,
          if_pos h, List.take_succ_cons, ih]
      · rw [List.take_succ_cons, List.takeWhile_cons, if_neg h, List.takeWhile_cons,
          if_neg h, List.take_nil]

theorem dropWhile_dropWhile {p : Char → Bool} : ∀ (l : Url),
    (l.dropWhile p).dropWhile p = l.dropWhile p := by
  intro l
  induction l with
  | nil => rfl
  | cons c t ih =>
    rw [List.dropWhile_cons]
    by_cases h : p c = true
    · rw [if_pos h]; exact ih
    · rw [if_neg h, List.dropWhile_cons, if_neg h]

theorem dropWhile_head_false {p : Char → Bool} : ∀ (l : Url),
    l.dropWhile p = [] ∨ ∃ c t, l.dropWhile p = c :: t ∧ p c = false := by
  intro l
  induction l with
  | nil => exact Or.inl rfl
  | cons c t ih =>
    rw [List.dropWhile_cons]
    by_cases h : p c = true
    · rw [if_pos h]; exact ih
    · rw [if_neg h]
      exact Or.inr ⟨c, t, rfl, Bool.eq_false_iff.mpr h⟩

theorem rstripSlash_append (l : Url) :
    ∃ t : Url, l = rstripSlash l ++ t ∧ ∀ c ∈ t, c = '/' := by
  refine ⟨(l.reverse.takeWhile fun c => c = '/').reverse, ?_, ?_⟩
  · have h := List.takeWhile_append_dropWhile (p := fun c => decide (c = '/'))
      (l := l.reverse)
    have h2 := congrArg List.reverse h
    rw [List.reverse_append, List.reverse_reverse] at h2
    unfold rstripSlash
    exact h2.symm
  · intro c hc
    rw [List.mem_reverse] at hc
    have := mem_takeWhile_prop hc
    exact of_decide_eq_true this

theorem rstripSlash_subset {l : Url} {c : Char} (h : c ∈ rstripSlash l) : c ∈ l := by
  unfold rstripSlash at h
  rw [List.mem_reverse] at h
  exact List.mem_reverse.mp ((List.dropWhile_sublist _).subset h)

theorem rstripSlash_idem (l : Url) : rstripSlash (rstripSlash l) = rstripSlash l := by
  unfold rstripSlash
  rw [List.reverse_reverse, dropWhile_dropWhile]

theorem rstripSlash_no_trailing (l : Url) :
    rstripSlash l = [] ∨
      ∃ a t, rstripSlash l = a ++ [t] ∧ t ≠ '/' := by
  unfold rstripSlash
  rcases dropWhile_head_false (p := fun c => c = '/') l.reverse with h | ⟨c, t, h, hc⟩
  · rw [h]; exact Or.inl rfl
  · rw [h]
    refine Or.inr ⟨t.reverse, c, by simp, ?_⟩
    intro hh
    rw [hh] at hc
    simp at hc

theorem lowerL_lowerL (l : Url) : lowerL (lowerL l) = lowerL l := by
  unfold lowerL
  rw [List.map_map]
  apply List.map_congr_left
  intro c _
  exact lowerChar_lowerChar c

theorem lowerL_eq_nil_iff (l : Url) : lowerL l = [] ↔ l = [] := by
  unfold lowerL
  simp

theorem contains_lowerL (l : Url) (d : Char) (hd : ¬ (97 ≤ d.toNat ∧ d.toNat ≤ 122))
    (hd2 : ¬ (65 ≤ d.toNat ∧ d.toNat ≤ 90)) :
    (lowerL l).contains d = l.contains d := by
  unfold lowerL
  rw [Bool.eq_iff_iff]
  rw [List.elem_iff, List.elem_iff]
  simp only [List.mem_map]
  constructor
  · rintro ⟨c, hc, he⟩
    rw [lowerChar_eq_iff c d hd hd2] at he
    rwa [he] at hc
  · intro h
    exact ⟨d, h, (lowerChar_eq_iff d d hd hd2).mpr rfl⟩

/-! ## C5: split-function lemmas -/

theorem isSchemeChar_props (c : Char) (h : isSchemeChar c = true) :
    43 ≤ c.toNat ∧ c.toNat ≤ 122 ∧ c.toNat ≠ 47 ∧ c.toNat ≠ 58 ∧ c.toNat ≠ 59 ∧
    c.toNat ≠ 35 ∧ c.toNat ≠ 63 ∧ c.toNat ≠ 91 ∧ c.toNat ≠ 93 := by
  rw [isSchemeChar_iff] at h
  omega

theorem isValidScheme_parts (s : Url) (h : isValidScheme s = true) :
    ∃ c t, s = c :: t ∧ isAsciiAlpha c = true ∧ ∀ d ∈ s, isSchemeChar d = true := by
  cases s with
  | nil => exact absurd h (by simp [isValidScheme])
  | cons c t =>
    unfold isValidScheme at h
    rw [Bool.and_eq_true] at h
    refine ⟨c, t, rfl, h.1, ?_⟩
    intro d hd
    exact List.all_eq_true.mp h.2 d hd

theorem splitFirst_not_mem (c : Char) (l : Url) (h : c ∉ l) :
    splitFirst c l = (l, []) := by
  unfold splitFirst
  have ht : l.takeWhile (fun d => d ≠ c) = l := by
    apply takeWhile_all
    intro d hd
    simp only [decide_eq_true_eq]
    intro he
    rw [he] at hd
    exact h hd
  rw [ht]
  simp

theorem splitScheme_valid_append (s r : Url) (hvs : isValidScheme s = true)
    (hlow : lowerL s = s) : splitScheme (s ++ ':' :: r) = (s, r) := by
  rcases isValidScheme_parts s hvs with ⟨c, t, hst, hal, hall⟩
  have hnc : ∀ d ∈ s, (fun d => decide (d ≠ ':')) d = true := by
    intro d hd
    simp only [decide_eq_true_eq]
    intro he
    have h2 := (isSchemeChar_props d (hall d hd)).2.2.2.1
    rw [he] at h2
    exact h2 rfl
  unfold splitScheme
  rw [takeWhile_append_all hnc, takeWhile_cons_false r (by simp)]
  rw [List.append_nil]
  have hlen : s.length < (s ++ ':' :: r).length := by
    rw [List.length_append, List.length_cons]
    omega
  rw [if_pos]
  · rw [hlow]
    have : s ++ ':' :: r = (s ++ [':']) ++ r := by simp
    rw [this]
    have h3 : s.length + 1 = (s ++ [':']).length := by simp
    rw [h3, List.drop_left]
  · simp only [Bool.and_eq_true, decide_eq_true_eq]
    exact ⟨hlen, hvs⟩

theorem splitScheme_not_alpha (d : Char) (t : Url) (h : isAsciiAlpha d = false) :
    splitScheme (d :: t) = ([], d :: t) := by
  unfold splitScheme
  rw [if_neg]
  intro hc
  rw [Bool.and_eq_true] at hc
  have h2 := hc.2
  rw [List.takeWhile_cons] at h2
  by_cases hd : d = ':'
  · rw [if_neg (by simp [hd])] at h2
    exact absurd h2 (by simp [isValidScheme])
  · rw [if_pos (by simp [hd])] at h2
    unfold isValidScheme at h2
    rw [Bool.and_eq_true] at h2
    rw [h2.1] at h
    exact Bool.noConfusion h

theorem splitScheme_nil_result (u : Url) (h : splitScheme u = ([], u)) :
    ¬((u.takeWhile fun c => c ≠ ':').length < u.length ∧
      isValidScheme (u.takeWhile fun c => c ≠ ':') = true) := by
  intro hc
  unfold splitScheme at h
  rw [if_pos (by simp only [Bool.and_eq_true, decide_eq_true_eq]; exact hc)] at h
  have h1 : lowerL (u.takeWhile fun c => c ≠ ':') = [] := congrArg Prod.fst h
  rw [lowerL_eq_nil_iff] at h1
  rw [h1] at hc
  have h2 := hc.2
  exact Bool.noConfusion h2

theorem splitScheme_take (u : Url) (h : splitScheme u = ([], u)) (m : Nat) :
    splitScheme (u.take m) = ([], u.take m) := by
  have hc := splitScheme_nil_result u h
  unfold splitScheme
  rw [if_neg]
  intro hcc
  rw [Bool.and_eq_true, decide_eq_true_eq] at hcc
  rw [takeWhile_take_comm] at hcc
  apply hc
  have hlt : (u.takeWhile fun c => decide (c ≠ ':')).length ≤ u.length :=
    (List.takeWhile_sublist _).length_le
  rcases hcc with ⟨hl, hv⟩
  rw [List.length_take, List.length_take] at hl
  by_cases hm : m ≤ (u.takeWhile fun c => decide (c ≠ ':')).length
  · exfalso; omega
  · rw [List.take_of_length_le (by omega)] at hv
    exact ⟨by omega, hv⟩

theorem netloc_scan (n p2 : Url) (hn : ∀ c ∈ n, isNetlocEnd c = false)
    (hp : p2 = [] ∨ ∃ t, p2 = '/' :: t) :
    (n ++ p2).takeWhile (fun c => !isNetlocEnd c) = n ∧
    (n ++ p2).drop n.length = p2 := by
  have hna : ∀ c ∈ n, (fun c => !isNetlocEnd c) c = true := by
    intro c hc
    simp [hn c hc]
  constructor
  · rw [takeWhile_append_all hna]
    rcases hp with rfl | ⟨t, rfl⟩
    · simp
    · rw [takeWhile_cons_false t (by simp [isNetlocEnd])]
      simp
  · exact List.drop_left n p2

theorem lstripC0_no_strip (l : Url)
    (h : l = [] ∨ ∃ c t, l = c :: t ∧ ¬ c.toNat ≤ 32) : lstripC0 l = l := by
  rcases h with rfl | ⟨c, t, rfl, hc⟩
  · rfl
  · unfold lstripC0
    rw [List.dropWhile_cons, if_neg (by simpa using hc)]

theorem removeUnsafe_no_strip (l : Url)
    (h : ∀ c ∈ l, ¬(c = '\t' ∨ c = '\r' ∨ c = '\n')) : removeUnsafe l = l := by
  unfold removeUnsafe
  apply List.filter_eq_self.mpr
  intro c hc
  simpa using h c hc

theorem contains_eq_false_of_not_mem (l : Url) (c : Char) (h : c ∉ l) :
    l.contains c = false := by
  rw [Bool.eq_false_iff]
  intro hc
  exact h (List.elem_iff.mp hc)

theorem rstrip_eq_self_of_last_ne (l a : Url) (t : Char) (hl : l = a ++ [t])
    (ht : t ≠ '/') : rstripSlash l = l := by
  subst hl
  unfold rstripSlash
  rw [List.reverse_append, List.reverse_singleton, List.singleton_append,
    List.dropWhile_cons, if_neg (by simpa using ht)]
  rw [List.reverse_cons, List.reverse_reverse]

theorem normPath_cases (p : Url) (h : normPath p = p) :
    p = ['/'] ∨ p = [] ∨ ∃ a t, p = a ++ [t] ∧ t ≠ '/' := by
  unfold normPath at h
  by_cases hp : p = ['/']
  · exact Or.inl hp
  · rw [if_neg hp] at h
    rcases rstripSlash_no_trailing p with h2 | ⟨a, t, h2, ht⟩
    · rw [h] at h2
      exact Or.inr (Or.inl h2)
    · rw [h] at h2
      exact Or.inr (Or.inr ⟨a, t, h2, ht⟩)

theorem urlunsplitL_cond_true (s n p : Url)
    (h : n ≠ [] ∨ (s ≠ [] ∧ usesNetloc.contains s = true ∧ p.take 2 ≠ ['/', '/'])) :
    urlunsplitL s n p [] [] =
      if s ≠ [] then
        s ++ ':' :: ('/' :: '/' ::
          (n ++ (if p ≠ [] ∧ p.take 1 ≠ ['/'] then '/' :: p else p)))
      else '/' :: '/' :: (n ++ (if p ≠ [] ∧ p.take 1 ≠ ['/'] then '/' :: p else p)) := by
  unfold urlunsplitL
  dsimp only []
  rw [if_pos h]
  rw [if_neg (by simp), if_neg (by simp)]

theorem urlunsplitL_cond_false (s n p : Url)
    (h : ¬ (n ≠ [] ∨ (s ≠ [] ∧ usesNetloc.contains s = true ∧ p.take 2 ≠ ['/', '/']))) :
    urlunsplitL s n p [] [] = if s ≠ [] then s ++ ':' :: p else p := by
  unfold urlunsplitL
  dsimp only []
  rw [if_neg h]
  rw [if_neg (by simp), if_neg (by simp)]

theorem path2_shape (p : Url) :
    (if p ≠ [] ∧ p.take 1 ≠ ['/'] then '/' :: p else p) = [] ∨
      ∃ t, (if p ≠ [] ∧ p.take 1 ≠ ['/'] then '/' :: p else p) = '/' :: t := by
  by_cases h : p ≠ [] ∧ p.take 1 ≠ ['/']
  · rw [if_pos h]
    exact Or.inr ⟨p, rfl⟩
  · rw [if_neg h]
    push_neg at h
    by_cases hp : p = []
    · exact Or.inl hp
    · have h1 := h hp
      cases p with
      | nil => exact Or.inl rfl
      | cons c t =>
        have h2 : c = '/' := by simpa using h1
        exact Or.inr ⟨t, by rw [h2]⟩

theorem normPath_path2 (p : Url) (h : normPath p = p) :
    normPath (if p ≠ [] ∧ p.take 1 ≠ ['/'] then '/' :: p else p) =
      (if p ≠ [] ∧ p.take 1 ≠ ['/'] then '/' :: p else p) := by
  by_cases hc : p ≠ [] ∧ p.take 1 ≠ ['/']
  · rw [if_pos hc]
    rcases normPath_cases p h with h1 | h1 | ⟨a, t, hat, ht⟩
    · exfalso
      apply hc.2
      rw [h1]
      rfl
    · exact absurd h1 hc.1
    · unfold normPath
      rw [if_neg (by rw [hat]; intro hh; rcases List.cons.injEq '/' (a ++ [t]) '/' []
          ▸ hh with ⟨-, h3⟩; exact absurd h3 (by simp))]
      exact rstrip_eq_self_of_last_ne _ ('/' :: a) t (by rw [hat]; rfl) ht
  · rw [if_neg hc]
    exact h

/-- As `netloc_scan`, with the negated predicate written the way it
elaborates inside `urlsplitE`. -/
theorem netloc_scan2 (n p2 : Url) (hn : ∀ c ∈ n, isNetlocEnd c = false)
    (hp : p2 = [] ∨ ∃ t, p2 = '/' :: t) :
    (n ++ p2).takeWhile (fun c => ¬ isNetlocEnd c) = n ∧
    (n ++ p2).drop n.length = p2 := by
  constructor
  · rw [takeWhile_append_all]
    · rcases hp with rfl | ⟨t, rfl⟩
      · simp
      · rw [takeWhile_cons_false t (by simp [isNetlocEnd])]
        simp
    · intro c hc
      simp [hn c hc]
  · exact List.drop_left n p2

theorem schemeChar_clean (c : Char) (h : isSchemeChar c = true) :
    ¬(c = '\t' ∨ c = '\r' ∨ c = '\n') := by
  have h2 := isSchemeChar_props c h
  intro hc
  rcases hc with rfl | rfl | rfl <;> exact absurd h2 (by decide)

theorem valid_scheme_clean (s : Url) (hvs : isValidScheme s = true) :
    ∀ c ∈ s, ¬(c = '\t' ∨ c = '\r' ∨ c = '\n') := by
  rcases isValidScheme_parts s hvs with ⟨c0, t0, hst, hal, hall⟩
  intro c hc
  exact schemeChar_clean c (hall c hc)

/-- The head of a valid scheme is an ASCII letter, hence above 32 and the
whole string survives the leading strip. -/
theorem valid_scheme_head (s : Url) (hvs : isValidScheme s = true) :
    ∃ c t, s = c :: t ∧ ¬ c.toNat ≤ 32 ∧ isAsciiAlpha c = true := by
  rcases isValidScheme_parts s hvs with ⟨c, t, hst, hal, hall⟩
  refine ⟨c, t, hst, ?_, hal⟩
  have h2 := isSchemeChar_props c (hall c (hst ▸ List.mem_cons_self c t))
  omega

/-- Fixpoint property of the reassembled URL: re-normalizing the output
of `_normalize_url` (given as its components) returns it unchanged,
provided the path carries no `;` and the pathological empty-netloc
`//`-path case is excluded. -/
theorem normalizeUrl_fix (s n p : Url)
    (hs : s = [] ∨ (isValidScheme s = true ∧ lowerL s = s))
    (hnlow : lowerL n = n)
    (hnend : ∀ c ∈ n, isNetlocEnd c = false)
    (hnbr : ((n.contains '[' && !n.contains ']') ||
             (n.contains ']' && !n.contains '[')) = false)
    (hnclean : ∀ c ∈ n, ¬(c = '\t' ∨ c = '\r' ∨ c = '\n'))
    (hpclean : ∀ c ∈ p, ¬(c = '\t' ∨ c = '\r' ∨ c = '\n'))
    (hpnorm : normPath p = p)
    (hpf : ∀ c ∈ p, c ≠ '#')
    (hpq : ∀ c ∈ p, c ≠ '?')
    (hpsemi : ∀ c ∈ p, c ≠ ';')
    (hpscheme : s = [] → n = [] → splitScheme p = ([], p))
    (hphead : s = [] → n = [] → (p = [] ∨ 32 < (p.headD ' ').toNat))
    (hpatho : ¬(n = [] ∧ p.take 2 = ['/', '/'])) :
    normalizeUrl (urlunsplitL s n p [] []) = urlunsplitL s n p [] [] := by
  by_cases hcond : n ≠ [] ∨ (s ≠ [] ∧ usesNetloc.contains s = true ∧
      p.take 2 ≠ ['/', '/'])
  · -- the '//'-prefixed form
    rw [urlunsplitL_cond_true s n p hcond]
    set q : Url := if p ≠ [] ∧ p.take 1 ≠ ['/'] then '/' :: p else p with hqdef
    have hq_mem : ∀ c ∈ q, c = '/' ∨ c ∈ p := by
      intro c hc
      rw [hqdef] at hc
      by_cases hi : p ≠ [] ∧ p.take 1 ≠ ['/']
      · rw [if_pos hi] at hc
        rcases List.mem_cons.mp hc with rfl | hc2
        · exact Or.inl rfl
        · exact Or.inr hc2
      · rw [if_neg hi] at hc
        exact Or.inr hc
    have hq_shape : q = [] ∨ ∃ t, q = '/' :: t := path2_shape p
    have hq_clean : ∀ c ∈ q, ¬(c = '\t' ∨ c = '\r' ∨ c = '\n') := by
      intro c hc
      rcases hq_mem c hc with rfl | hc2
      · decide
      · exact hpclean c hc2
    have hq_f : '#' ∉ q := by
      intro hc
      rcases hq_mem '#' hc with he | hc2
      · exact absurd he (by decide)
      · exact hpf '#' hc2 rfl
    have hq_q : '?' ∉ q := by
      intro hc
      rcases hq_mem '?' hc with he | hc2
      · exact absurd he (by decide)
      · exact hpq '?' hc2 rfl
    have hq_semi : ';' ∉ q := by
      intro hc
      rcases hq_mem ';' hc with he | hc2
      · exact absurd he (by decide)
      · exact hpsemi ';' hc2 rfl
    have hq_norm : normPath q = q := normPath_path2 p hpnorm
    -- the core after the optional scheme
    have hcore_clean : ∀ c ∈ '/' :: '/' :: (n ++ q),
        ¬(c = '\t' ∨ c = '\r' ∨ c = '\n') := by
      intro c hc
      rcases List.mem_cons.mp hc with rfl | hc
      · decide
      rcases List.mem_cons.mp hc with rfl | hc
      · decide
      rcases List.mem_append.mp hc with hc | hc
      · exact hnclean c hc
      · exact hq_clean c hc
    -- compute the split of the reassembled URL, by scheme case
    have hmain : ∀ w : Url, w = (if s ≠ [] then
          s ++ ':' :: ('/' :: '/' :: (n ++ q))
        else '/' :: '/' :: (n ++ q)) →
        urlsplitE w = some ⟨s, n, q, [], []⟩ := by
      intro w hw
      have hLR : removeUnsafe (lstripC0 w) = w := by
        have hclean : ∀ c ∈ w, ¬(c = '\t' ∨ c = '\r' ∨ c = '\n') := by
          rw [hw]
          by_cases hs0 : s ≠ []
          · rw [if_pos hs0]
            intro c hc
            rcases List.mem_append.mp hc with hc | hc
            · rcases hs with rfl | ⟨hvs, -⟩
              · exact absurd rfl hs0
              · exact valid_scheme_clean s hvs c hc
            · rcases List.mem_cons.mp hc with rfl | hc
              · decide
              · exact hcore_clean c hc
          · rw [if_neg hs0]
            exact hcore_clean
        have hstrip : lstripC0 w = w := by
          apply lstripC0_no_strip
          rw [hw]
          by_cases hs0 : s ≠ []
          · rw [if_pos hs0]
            rcases hs with rfl | ⟨hvs, -⟩
            · exact absurd rfl hs0
            · rcases valid_scheme_head s hvs with ⟨c, t, hst, h32, -⟩
              rw [hst]
              exact Or.inr ⟨c, t ++ ':' :: ('/' :: '/' :: (n ++ q)), rfl, h32⟩
          · rw [if_neg hs0]
            exact Or.inr ⟨'/', '/' :: (n ++ q), rfl, by decide⟩
        rw [hstrip]
        exact removeUnsafe_no_strip w hclean
      have hsch : splitScheme w = (s, '/' :: '/' :: (n ++ q)) := by
        rw [hw]
        by_cases hs0 : s ≠ []
        · rw [if_pos hs0]
          rcases hs with rfl | ⟨hvs, hlow⟩
          · exact absurd rfl hs0
          · exact splitScheme_valid_append s _ hvs hlow
        · rw [if_neg hs0]
          push_neg at hs0
          rw [hs0]
          exact splitScheme_not_alpha '/' _ (by decide)
      have hscan := netloc_scan2 n q hnend hq_shape
      unfold urlsplitE
      rw [hLR]
      dsimp only []
      rw [hsch]
      dsimp only []
      rw [if_pos (show List.take 2 ('/' :: '/' :: (n ++ q)) = ['/', '/'] from rfl)]
      have hdrop : List.drop 2 ('/' :: '/' :: (n ++ q)) = n ++ q := rfl
      rw [hdrop]
      rw [hscan.1, hscan.2]
      rw [hnbr]
      rw [if_neg (by simp)]
      rw [splitFirst_not_mem '#' q hq_f]
      dsimp only []
      rw [splitFirst_not_mem '?' q hq_q]
    have hw := hmain _ rfl
    have hparse : urlparseE (if s ≠ [] then
          s ++ ':' :: ('/' :: '/' :: (n ++ q))
        else '/' :: '/' :: (n ++ q)) = some ⟨s, n, q, [], [], []⟩ := by
      unfold urlparseE
      rw [hw]
      dsimp only []
      rw [contains_eq_false_of_not_mem q ';' hq_semi]
      simp
    unfold normalizeUrl
    rw [hparse]
    dsimp only []
    unfold urlunparseL
    rw [if_neg (by simp)]
    have hlow_s : lowerL s = s := by
      rcases hs with rfl | ⟨-, hlow⟩
      · rfl
      · exact hlow
    rw [hlow_s, hnlow, hq_norm]
    -- final re-assembly equality
    rw [urlunsplitL_cond_true s n q]
    · rw [hqdef]
      by_cases hs0 : s ≠ []
      · rw [if_pos hs0, if_pos hs0]
        have : (if (if p ≠ [] ∧ p.take 1 ≠ ['/'] then '/' :: p else p) ≠ [] ∧
            (if p ≠ [] ∧ p.take 1 ≠ ['/'] then '/' :: p else p).take 1 ≠ ['/'] then
              '/' :: (if p ≠ [] ∧ p.take 1 ≠ ['/'] then '/' :: p else p)
            else (if p ≠ [] ∧ p.take 1 ≠ ['/'] then '/' :: p else p)) =
            (if p ≠ [] ∧ p.take 1 ≠ ['/'] then '/' :: p else p) := by
          rw [if_neg]
          intro hcc
          rcases path2_shape p with h1 | ⟨t, h1⟩
          · exact hcc.1 h1
          · apply hcc.2
            rw [h1]
            rfl
        rw [this]
      · rw [if_neg hs0, if_neg hs0]
        have : (if (if p ≠ [] ∧ p.take 1 ≠ ['/'] then '/' :: p else p) ≠ [] ∧
            (if p ≠ [] ∧ p.take 1 ≠ ['/'] then '/' :: p else p).take 1 ≠ ['/'] then
              '/' :: (if p ≠ [] ∧ p.take 1 ≠ ['/'] then '/' :: p else p)
            else (if p ≠ [] ∧ p.take 1 ≠ ['/'] then '/' :: p else p)) =
            (if p ≠ [] ∧ p.take 1 ≠ ['/'] then '/' :: p else p) := by
          rw [if_neg]
          intro hcc
          rcases path2_shape p with h1 | ⟨t, h1⟩
          · exact hcc.1 h1
          · apply hcc.2
            rw [h1]
            rfl
        rw [this]
    · -- the unsplit condition holds again for (s, n, q)
      rcases hcond with hn0 | ⟨hs0, hmem, hp2⟩
      · exact Or.inl hn0
      · refine Or.inr ⟨hs0, hmem, ?_⟩
        rw [hqdef]
        by_cases hi : p ≠ [] ∧ p.take 1 ≠ ['/']
        · rw [if_pos hi]
          intro hcc
          apply hi.2
          have h5 : ('/' : Char) :: p.take 1 = ['/', '/'] := hcc
          injection h5
        · rw [if_neg hi]
          exact hp2
  · -- the output carries no netloc marker
    rw [urlunsplitL_cond_false s n p hcond]
    have hn : n = [] := by
      by_cases h : n = []
      · exact h
      · exact absurd (Or.inl h) hcond
    subst hn
    have hp2 : List.take 2 p ≠ ['/', '/'] := fun h => hpatho ⟨rfl, h⟩
    have hsplit : urlsplitE (if s ≠ [] then s ++ ':' :: p else p) =
        some ⟨s, [], p, [], []⟩ := by
      have hLR : removeUnsafe (lstripC0 (if s ≠ [] then s ++ ':' :: p else p)) =
          (if s ≠ [] then s ++ ':' :: p else p) := by
        by_cases hs0 : s ≠ []
        · rw [if_pos hs0]
          rcases hs with rfl | ⟨hvs, -⟩
          · exact absurd rfl hs0
          · rw [lstripC0_no_strip]
            · apply removeUnsafe_no_strip
              intro c hc
              rcases List.mem_append.mp hc with hc | hc
              · exact valid_scheme_clean s hvs c hc
              · rcases List.mem_cons.mp hc with rfl | hc
                · decide
                · exact hpclean c hc
            · rcases valid_scheme_head s hvs with ⟨c, t, hst, h32, -⟩
              rw [hst]
              exact Or.inr ⟨c, t ++ ':' :: p, rfl, h32⟩
        · rw [if_neg hs0]
          rw [lstripC0_no_strip]
          · exact removeUnsafe_no_strip p hpclean
          · push_neg at hs0
            rcases hphead hs0 rfl with h1 | h1
            · exact Or.inl h1
            · cases p with
              | nil => exact Or.inl rfl
              | cons c t =>
                refine Or.inr ⟨c, t, rfl, ?_⟩
                simp only [List.headD_cons] at h1
                omega
      have hsch : splitScheme (if s ≠ [] then s ++ ':' :: p else p) = (s, p) := by
        by_cases hs0 : s ≠ []
        · rw [if_pos hs0]
          rcases hs with rfl | ⟨hvs, hlow⟩
          · exact absurd rfl hs0
          · exact splitScheme_valid_append s p hvs hlow
        · rw [if_neg hs0]
          push_neg at hs0
          rw [hs0]
          exact hpscheme hs0 rfl
      unfold urlsplitE
      rw [hLR]
      dsimp only []
      rw [hsch]
      dsimp only []
      rw [if_neg hp2]
      rw [splitFirst_not_mem '#' p (fun h => hpf '#' h rfl)]
      dsimp only []
      rw [splitFirst_not_mem '?' p (fun h => hpq '?' h rfl)]
    have hparse : urlparseE (if s ≠ [] then s ++ ':' :: p else p) =
        some ⟨s, [], p, [], [], []⟩ := by
      unfold urlparseE
      rw [hsplit]
      dsimp only []
      rw [contains_eq_false_of_not_mem p ';' (fun h => hpsemi ';' h rfl)]
      simp
    unfold normalizeUrl
    rw [hparse]
    dsimp only []
    unfold urlunparseL
    rw [if_neg (by simp)]
    have hlow_s : lowerL s = s := by
      rcases hs with rfl | ⟨-, hlow⟩
      · rfl
      · exact hlow
    rw [hlow_s, hpnorm]
    exact urlunsplitL_cond_false s [] p hcond

theorem mem_removeUnsafe (l : Url) (c : Char) (h : c ∈ removeUnsafe l) :
    c ∈ l ∧ ¬(c = '\t' ∨ c = '\r' ∨ c = '\n') := by
  unfold removeUnsafe at h
  refine ⟨List.mem_of_mem_filter h, ?_⟩
  have h2 := List.of_mem_filter h
  simpa using h2

theorem mem_lstripC0 (l : Url) (c : Char) (h : c ∈ lstripC0 l) : c ∈ l :=
  (List.dropWhile_sublist _).subset h

theorem mem_cleaned (u : Url) (c : Char)
    (h : c ∈ removeUnsafe (lstripC0 u)) :
    c ∈ u ∧ ¬(c = '\t' ∨ c = '\r' ∨ c = '\n') :=
  ⟨mem_lstripC0 u c (mem_removeUnsafe _ c h).1, (mem_removeUnsafe _ c h).2⟩

/-- The cleaned URL (stripped and with unsafe bytes removed) is empty or
starts above code point 32. -/
theorem cleaned_head (u : Url) :
    removeUnsafe (lstripC0 u) = [] ∨
      ∃ c t, removeUnsafe (lstripC0 u) = c :: t ∧ 32 < c.toNat := by
  rcases dropWhile_head_false (p := fun c => decide (c.toNat ≤ 32)) u with h | ⟨c, t, h, hc⟩
  · left
    have h1 : lstripC0 u = [] := h
    rw [h1]
    rfl
  · have h1 : lstripC0 u = c :: t := h
    have hc2 : ¬ c.toNat ≤ 32 := by simpa using hc
    right
    refine ⟨c, removeUnsafe t, ?_, by omega⟩
    rw [h1]
    unfold removeUnsafe
    rw [List.filter_cons, if_pos]
    rw [decide_eq_true_eq]
    intro hor
    rcases hor with rfl | rfl | rfl <;> exact hc2 (by decide)

theorem all_lowerL (l : Url) (q : Char → Bool) (hq : ∀ c, q (lowerChar c) = q c) :
    (lowerL l).all q = l.all q := by
  unfold lowerL
  rw [List.all_map]
  have he : (q ∘ lowerChar) = q := funext fun c => hq c
  rw [he]

theorem isValidScheme_lowerL (v : Url) :
    isValidScheme (lowerL v) = isValidScheme v := by
  cases v with
  | nil => rfl
  | cons c t =>
    have h1 : lowerL (c :: t) = lowerChar c :: lowerL t := rfl
    rw [h1]
    show (isAsciiAlpha (lowerChar c) && (lowerChar c :: lowerL t).all isSchemeChar) =
      (isAsciiAlpha c && (c :: t).all isSchemeChar)
    rw [isAsciiAlpha_lowerChar]
    have h2 : (lowerChar c :: lowerL t) = lowerL (c :: t) := rfl
    rw [h2, all_lowerL (c :: t) isSchemeChar isSchemeChar_lowerChar]

theorem lowerChar_range (d : Char) :
    lowerChar d = d ∨ (97 ≤ (lowerChar d).toNat ∧ (lowerChar d).toNat ≤ 122) := by
  by_cases h : 65 ≤ d.toNat ∧ d.toNat ≤ 90
  · right
    rw [lowerChar_toNat, if_pos h]
    omega
  · left
    rw [char_eq_iff_toNat, lowerChar_toNat, if_neg h]

theorem isNetlocEnd_cases (c : Char) (h : isNetlocEnd c = true) :
    c = '/' ∨ c = '?' ∨ c = '#' := by
  rw [isNetlocEnd_iff] at h
  rcases h with h1 | h1 | h1
  · exact Or.inl (char_eq_of_toNat c '/' (by rw [h1]; rfl))
  · exact Or.inr (Or.inl (char_eq_of_toNat c '?' (by rw [h1]; rfl)))
  · exact Or.inr (Or.inr (char_eq_of_toNat c '#' (by rw [h1]; rfl)))

theorem append_eq_take (l a b : Url) (h : l = a ++ b) : a = l.take a.length := by
  rw [h, List.take_left]

theorem takeWhile_eq_take (q : Char → Bool) (l : Url) :
    l.takeWhile q = l.take (l.takeWhile q).length :=
  append_eq_take l _ _ (List.takeWhile_append_dropWhile (p := q) (l := l)).symm

theorem rstripSlash_eq_take (l : Url) :
    rstripSlash l = l.take (rstripSlash l).length := by
  apply append_eq_take l _ ((l.reverse.takeWhile fun c => c = '/').reverse)
  have h1 : (l.reverse.takeWhile fun c => c = '/') ++
      (l.reverse.dropWhile fun c => c = '/') = l.reverse :=
    List.takeWhile_append_dropWhile _ _
  have h2 := congrArg List.reverse h1
  rw [List.reverse_append, List.reverse_reverse] at h2
  unfold rstripSlash
  exact h2.symm

theorem normPath_eq_take (p : Url) : normPath p = p.take (normPath p).length := by
  unfold normPath
  by_cases hp : p = ['/']
  · rw [if_pos hp, hp]
    rfl
  · rw [if_neg hp]
    exact rstripSlash_eq_take p

theorem mem_normPath (p : Url) (c : Char) (h : c ∈ normPath p) : c ∈ p := by
  unfold normPath at h
  by_cases hp : p = ['/']
  · rw [if_pos hp] at h
    rw [hp]
    exact h
  · rw [if_neg hp] at h
    exact rstripSlash_subset h

theorem normPath_idem (p : Url) : normPath (normPath p) = normPath p := by
  unfold normPath
  by_cases hp : p = ['/']
  · rw [if_pos hp, if_pos rfl]
  · rw [if_neg hp]
    by_cases h2 : rstripSlash p = ['/']
    · rw [if_pos h2, h2]
    · rw [if_neg h2]
      exact rstripSlash_idem p

theorem take_head (l : Url) (m : Nat) (c : Char) (t : Url)
    (h : l.take m = c :: t) (d : Char) : l.headD d = c := by
  cases l with
  | nil =>
    rw [List.take_nil] at h
    exact absurd h (by simp)
  | cons a s =>
    cases m with
    | zero => exact absurd h (by simp)
    | succ k =>
      rw [List.take_succ_cons] at h
      cases h
      rw [List.headD_cons]

theorem takeWhile_eq_nil_cases (q : Char → Bool) (l : Url)
    (h : l.takeWhile q = []) :
    l = [] ∨ ∃ c t, l = c :: t ∧ q c = false := by
  cases l with
  | nil => exact Or.inl rfl
  | cons c t =>
    right
    refine ⟨c, t, rfl, ?_⟩
    rw [List.takeWhile_cons] at h
    by_cases hc : q c = true
    · rw [if_pos hc] at h
      exact absurd h (by simp)
    · exact Bool.eq_false_iff.mpr hc

theorem splitFirst_nil (d : Char) : splitFirst d [] = ([], []) := rfl

theorem splitFirst_fst_take (d : Char) (l a b : Url)
    (h : splitFirst d l = (a, b)) : a = l.take a.length := by
  unfold splitFirst at h
  dsimp only [] at h
  split at h
  · injection h with h1 h2
    rw [← h1]
    exact takeWhile_eq_take _ l
  · injection h with h1 h2
    rw [← h1, List.take_length]

theorem splitFirst_fst (d : Char) (l a b : Url)
    (h : splitFirst d l = (a, b)) :
    (∀ c ∈ a, c ∈ l) ∧ (∀ c ∈ a, c ≠ d) := by
  unfold splitFirst at h
  dsimp only [] at h
  split at h
  · injection h with h1 h2
    constructor
    · intro c hc
      rw [← h1] at hc
      exact mem_takeWhile_mem hc
    · intro c hc
      rw [← h1] at hc
      have h3 := mem_takeWhile_prop hc
      simpa using h3
  · next hlen =>
    injection h with h1 h2
    constructor
    · intro c hc
      rw [← h1] at hc
      exact hc
    · have hle : (l.takeWhile fun c => decide (c ≠ d)).length ≤ l.length :=
        (List.takeWhile_sublist _).length_le
      have heq : (l.takeWhile fun c => decide (c ≠ d)) = l := by
        have h3 := takeWhile_eq_take (fun c => decide (c ≠ d)) l
        rw [show (l.takeWhile fun c => decide (c ≠ d)).length = l.length from by omega,
          List.take_length] at h3
        exact h3
      intro c hc
      rw [← h1, ← heq] at hc
      have h3 := mem_takeWhile_prop hc
      simpa using h3

theorem splitFirst_cons_eq (d : Char) (t : Url) :
    splitFirst d (d :: t) = ([], t) := by
  simp [splitFirst, List.takeWhile_cons]

theorem splitFirst_cons_ne (d c : Char) (t : Url) (hc : ¬ c = d) :
    ∃ t2 b2, splitFirst d (c :: t) = (c :: t2, b2) := by
  unfold splitFirst
  rw [List.takeWhile_cons]
  have hpi : decide (c ≠ d) = true := by simp [hc]
  rw [hpi]
  rw [if_pos (show (true = true) from rfl)]
  dsimp only []
  split
  · exact ⟨_, _, rfl⟩
  · exact ⟨t, [], rfl⟩

theorem splitScheme_fst_props (v s r : Url) (hss : splitScheme v = (s, r)) :
    s = [] ∨ (isValidScheme s = true ∧ lowerL s = s) := by
  unfold splitScheme at hss
  dsimp only [] at hss
  split at hss
  · next hc =>
    injection hss with h1 h2
    right
    rw [Bool.and_eq_true] at hc
    constructor
    · rw [← h1, isValidScheme_lowerL]
      exact hc.2
    · rw [← h1, lowerL_lowerL]
  · injection hss with h1 h2
    exact Or.inl h1.symm

theorem splitScheme_fst_nil (v s r : Url) (hss : splitScheme v = (s, r))
    (hs : s = []) : r = v := by
  unfold splitScheme at hss
  dsimp only [] at hss
  split at hss
  · next hc =>
    injection hss with h1 h2
    rw [hs] at h1
    rw [lowerL_eq_nil_iff] at h1
    rw [Bool.and_eq_true] at hc
    have h3 := hc.2
    rw [h1] at h3
    exact absurd h3 (by simp [isValidScheme])
  · injection hss with h1 h2
    exact h2.symm

theorem splitScheme_eq_nil_pair (v s r : Url) (hss : splitScheme v = (s, r))
    (hs : s = []) : splitScheme v = ([], v) := by
  rw [hss, hs, splitScheme_fst_nil v s r hss hs]

theorem splitScheme_snd_subset (v s r : Url) (hss : splitScheme v = (s, r))
    (c : Char) (h : c ∈ r) : c ∈ v := by
  unfold splitScheme at hss
  dsimp only [] at hss
  split at hss
  · injection hss with h1 h2
    rw [← h2] at h
    exact List.mem_of_mem_drop h
  · injection hss with h1 h2
    rw [← h2] at h
    exact h

/-- Properties of the components produced by a successful `urlsplit`:
the scheme is empty or a valid lowercased scheme, the netloc stops before
any delimiter, brackets are balanced-or-absent, netloc and path consist of
characters of the input with no tab/CR/LF, the path carries no `#` or `?`,
and with empty scheme and netloc the path re-splits schemelessly and does
not start with a strippable character. -/
theorem urlsplitE_first_parse (u : Url) (sr : SplitResult)
    (h : urlsplitE u = some sr) :
    (sr.scheme = [] ∨ (isValidScheme sr.scheme = true ∧ lowerL sr.scheme = sr.scheme)) ∧
    (∀ c ∈ sr.netloc, isNetlocEnd c = false) ∧
    ((sr.netloc.contains '[' && !sr.netloc.contains ']') ||
     (sr.netloc.contains ']' && !sr.netloc.contains '[')) = false ∧
    (∀ c ∈ sr.netloc, c ∈ u ∧ ¬(c = '\t' ∨ c = '\r' ∨ c = '\n')) ∧
    (∀ c ∈ sr.path, c ∈ u ∧ ¬(c = '\t' ∨ c = '\r' ∨ c = '\n')) ∧
    (∀ c ∈ sr.path, c ≠ '#' ∧ c ≠ '?') ∧
    (sr.scheme = [] → sr.netloc = [] → splitScheme sr.path = ([], sr.path)) ∧
    (sr.scheme = [] → sr.netloc = [] →
      (sr.path = [] ∨ 32 < (sr.path.headD ' ').toNat)) := by
  unfold urlsplitE at h
  dsimp only [] at h
  rcases hss : splitScheme (removeUnsafe (lstripC0 u)) with ⟨s₀, r₀⟩
  rw [hss] at h
  dsimp only [] at h
  by_cases h2 : List.take 2 r₀ = ['/', '/']
  · rw [if_pos h2] at h
    set NL : Url := (List.drop 2 r₀).takeWhile (fun c => ¬ isNetlocEnd c) with hNL
    split at h
    · exact absurd h (by simp)
    · next hbr =>
      rcases hf1 : splitFirst '#' (List.drop NL.length (List.drop 2 r₀)) with ⟨r1, f1⟩
      rw [hf1] at h
      dsimp only [] at h
      rcases hf2 : splitFirst '?' r1 with ⟨p₀, q₀⟩
      rw [hf2] at h
      dsimp only [] at h
      injection h with h3
      subst h3
      have hfst1 := splitFirst_fst '#' _ r1 f1 hf1
      have hfst2 := splitFirst_fst '?' r1 p₀ q₀ hf2
      have hmemv : ∀ c ∈ p₀, c ∈ removeUnsafe (lstripC0 u) := by
        intro c hc
        apply splitScheme_snd_subset _ s₀ r₀ hss c
        apply List.mem_of_mem_drop
        apply List.mem_of_mem_drop
        exact hfst1.1 c (hfst2.1 c hc)
      have hkey : NL = [] → (p₀ = [] ∨ ∃ t3, p₀ = '/' :: t3) := by
        intro hn0
        rw [hn0, List.length_nil, List.drop_zero] at hf1
        rcases takeWhile_eq_nil_cases _ _ (hNL.symm.trans hn0) with hwnil | ⟨c, t, hwc, hcf⟩
        · rw [hwnil, splitFirst_nil] at hf1
          injection hf1 with ha hb
          rw [← ha, splitFirst_nil] at hf2
          injection hf2 with hc2 hd
          exact Or.inl hc2.symm
        · have hcf2 : decide (¬ (isNetlocEnd c = true)) = false := hcf
          rw [decide_eq_false_iff_not, not_not] at hcf2
          rw [hwc] at hf1
          rcases isNetlocEnd_cases c hcf2 with rfl | rfl | rfl
          · rcases splitFirst_cons_ne '#' '/' t (by decide) with ⟨t2, b2, hsf⟩
            rw [hsf] at hf1
            injection hf1 with ha hb
            rw [← ha] at hf2
            rcases splitFirst_cons_ne '?' '/' t2 (by decide) with ⟨t3, b3, hsf2⟩
            rw [hsf2] at hf2
            injection hf2 with hc2 hd
            exact Or.inr ⟨t3, hc2.symm⟩
          · rcases splitFirst_cons_ne '#' '?' t (by decide) with ⟨t2, b2, hsf⟩
            rw [hsf] at hf1
            injection hf1 with ha hb
            rw [← ha, splitFirst_cons_eq] at hf2
            injection hf2 with hc2 hd
            exact Or.inl hc2.symm
          · rw [splitFirst_cons_eq] at hf1
            injection hf1 with ha hb
            rw [← ha, splitFirst_nil] at hf2
            injection hf2 with hc2 hd
            exact Or.inl hc2.symm
      refine ⟨splitScheme_fst_props _ s₀ r₀ hss, ?_, ?_, ?_, ?_, ?_, ?_, ?_⟩
      · intro c hc
        rw [hNL] at hc
        have h3 := mem_takeWhile_prop hc
        have h4 : decide (¬ (isNetlocEnd c = true)) = true := h3
        rw [decide_eq_true_eq] at h4
        exact Bool.eq_false_iff.mpr h4
      · exact Bool.eq_false_iff.mpr hbr
      · intro c hc
        apply mem_cleaned
        apply splitScheme_snd_subset _ s₀ r₀ hss c
        apply List.mem_of_mem_drop
        rw [hNL] at hc
        exact mem_takeWhile_mem hc
      · intro c hc
        exact mem_cleaned u c (hmemv c hc)
      · intro c hc
        exact ⟨hfst1.2 c (hfst2.1 c hc), hfst2.2 c hc⟩
      · intro hs0 hn0
        rcases hkey hn0 with rfl | ⟨t3, hp⟩
        · rfl
        · rw [hp]
          exact splitScheme_not_alpha '/' t3 (by decide)
      · intro hs0 hn0
        rcases hkey hn0 with rfl | ⟨t3, hp⟩
        · exact Or.inl rfl
        · right
          rw [hp, List.headD_cons]
          decide
  · rw [if_neg h2] at h
    rcases hf1 : splitFirst '#' r₀ with ⟨r1, f1⟩
    rw [hf1] at h
    dsimp only [] at h
    rcases hf2 : splitFirst '?' r1 with ⟨p₀, q₀⟩
    rw [hf2] at h
    dsimp only [] at h
    injection h with h3
    subst h3
    have hfst1 := splitFirst_fst '#' r₀ r1 f1 hf1
    have hfst2 := splitFirst_fst '?' r1 p₀ q₀ hf2
    have hmemv : ∀ c ∈ p₀, c ∈ removeUnsafe (lstripC0 u) := by
      intro c hc
      exact splitScheme_snd_subset _ s₀ r₀ hss c (hfst1.1 c (hfst2.1 c hc))
    have htake : p₀ = r₀.take (min p₀.length r1.length) := by
      have t1 := splitFirst_fst_take '?' r1 p₀ q₀ hf2
      have t2 := splitFirst_fst_take '#' r₀ r1 f1 hf1
      rw [t2, List.take_take] at t1
      exact t1
    refine ⟨splitScheme_fst_props _ s₀ r₀ hss, ?_, ?_, ?_, ?_, ?_, ?_, ?_⟩
    · intro c hc
      exact absurd hc (List.not_mem_nil c)
    · rfl
    · intro c hc
      exact absurd hc (List.not_mem_nil c)
    · intro c hc
      exact mem_cleaned u c (hmemv c hc)
    · intro c hc
      exact ⟨hfst1.2 c (hfst2.1 c hc), hfst2.2 c hc⟩
    · intro hs0 hn0
      have hrv := splitScheme_fst_nil _ s₀ r₀ hss hs0
      have hsv := splitScheme_eq_nil_pair _ s₀ r₀ hss hs0
      rw [← hrv] at hsv
      rw [htake]
      exact splitScheme_take r₀ hsv _
    · intro hs0 hn0
      have hrv := splitScheme_fst_nil _ s₀ r₀ hss hs0
      rcases cleaned_head u with hv | ⟨c, t, hv, hc32⟩
      · left
        rw [htake, hrv, hv, List.take_nil]
      · cases hp0 : p₀ with
        | nil => exact Or.inl rfl
        | cons e t' =>
          right
          rw [List.headD_cons]
          have hvt : (removeUnsafe (lstripC0 u)).take (min p₀.length r1.length) =
              e :: t' := by
            rw [← hrv, ← htake]
            exact hp0
          have he := take_head _ _ e t' hvt ' '
          rw [hv, List.headD_cons] at he
          rw [← he]
          exact hc32

/-- Conditional idempotence of `_normalize_url`: on an input that parses,
contains no `;`, and does not hit the empty-netloc `//`-path corner, the
normalized URL re-normalizes to itself. -/
theorem normalizeUrl_idem_of (u : Url) (r : ParseResult)
    (hu0 : urlparseE u = some r) (hsemi : ';' ∉ u)
    (hpatho : ¬(r.netloc = [] ∧ (normPath r.path).take 2 = ['/', '/'])) :
    normalizeUrl (normalizeUrl u) = normalizeUrl u := by
  have hu := hu0
  unfold urlparseE at hu
  rcases hsp : urlsplitE u with - | sr
  · rw [hsp] at hu
    exact absurd hu (by simp)
  rw [hsp] at hu
  dsimp only [] at hu
  obtain ⟨hP1, hP2, hP3, hP4, hP5, hP6, hP7, hP8⟩ := urlsplitE_first_parse u sr hsp
  have hpsemi0 : ∀ c ∈ sr.path, c ≠ ';' := by
    intro c hc he
    exact hsemi (he ▸ (hP5 c hc).1)
  have hcont : sr.path.contains ';' = false :=
    contains_eq_false_of_not_mem _ ';' (fun hmem => hpsemi0 ';' hmem rfl)
  rw [hcont, Bool.and_false] at hu
  rw [if_neg (by simp)] at hu
  injection hu with h3
  subst h3
  have hnu : normalizeUrl u =
      urlunsplitL (lowerL sr.scheme) (lowerL sr.netloc) (normPath sr.path) [] [] := by
    unfold normalizeUrl
    rw [hu0]
    dsimp only []
    unfold urlunparseL
    rw [if_neg (by simp)]
  rw [hnu]
  apply normalizeUrl_fix
  · rcases hP1 with h | ⟨hv, hl⟩
    · exact Or.inl (by rw [h]; rfl)
    · refine Or.inr ⟨?_, lowerL_lowerL _⟩
      rw [hl]
      exact hv
  · exact lowerL_lowerL _
  · intro c hc
    have hc2 : c ∈ sr.netloc.map lowerChar := hc
    rcases List.mem_map.mp hc2 with ⟨d, hd, rfl⟩
    rw [isNetlocEnd_lowerChar]
    exact hP2 d hd
  · rw [contains_lowerL _ '[' (by decide) (by decide),
      contains_lowerL _ ']' (by decide) (by decide)]
    exact hP3
  · intro c hc
    have hc2 : c ∈ sr.netloc.map lowerChar := hc
    rcases List.mem_map.mp hc2 with ⟨d, hd, rfl⟩
    rcases lowerChar_range d with heq | hrange
    · rw [heq]
      exact (hP4 d hd).2
    · intro hor
      rcases hor with he | he | he <;> rw [he] at hrange <;>
        exact absurd hrange (by decide)
  · intro c hc
    exact (hP5 c (mem_normPath _ c hc)).2
  · exact normPath_idem _
  · intro c hc
    exact (hP6 c (mem_normPath _ c hc)).1
  · intro c hc
    exact (hP6 c (mem_normPath _ c hc)).2
  · intro c hc
    exact hpsemi0 c (mem_normPath _ c hc)
  · intro hs0 hn0
    have h7 := hP7 ((lowerL_eq_nil_iff _).mp hs0) ((lowerL_eq_nil_iff _).mp hn0)
    rw [normPath_eq_take]
    exact splitScheme_take sr.path h7 _
  · intro hs0 hn0
    rcases hP8 ((lowerL_eq_nil_iff _).mp hs0) ((lowerL_eq_nil_iff _).mp hn0) with
      hnil | hhead
    · left
      rw [hnil]
      rfl
    · rcases hnp : normPath sr.path with - | ⟨e, t'⟩
      · exact Or.inl rfl
      · right
        have h9 : sr.path.headD ' ' = e := by
          apply take_head sr.path (normPath sr.path).length e t'
          rw [← normPath_eq_take]
          exact hnp
        rw [List.headD_cons, ← h9]
        exact hhead
  · intro hcc
    exact hpatho ⟨(lowerL_eq_nil_iff _).mp hcc.1, hcc.2⟩

/-- C5 (amended): `_normalize_url` is a total deterministic function — on a
parse error it returns the lowercased input — and it is idempotent on every
input that parses, contains no `;` (so no parameter splitting interferes),
and whose parsed form does not have an empty netloc together with a
normalized path starting `//`.  Unconditional idempotence (the original
claim) is refuted by `normalize_url_idempotence_counterexample`. -/
theorem normalize_url_total_and_conditionally_idempotent :
    (∀ u : Url, urlparseE u = none → normalizeUrl u = lowerL u) ∧
    (∀ (u : Url) (r : ParseResult), urlparseE u = some r → ';' ∉ u →
      ¬(r.netloc = [] ∧ (normPath r.path).take 2 = ['/', '/']) →
      normalizeUrl (normalizeUrl u) = normalizeUrl u) := by
  constructor
  · intro u h
    unfold normalizeUrl
    rw [h]
  · exact normalizeUrl_idem_of

/-- C5 counterexample: `_normalize_url` is not idempotent.  On
`http://h/a;b/` the first pass keeps the path `/a;b/` (the `;` is in the
last segment, after the last `/`, so `_splitparams` separates nothing) and
strips the trailing slash to `/a;b`; re-normalizing that output splits
`;b` off as parameters of the last segment and drops it, yielding
`http://h/a`. -/
theorem normalize_url_idempotence_counterexample :
    normalizeUrl (normalizeUrl ("http://h/a;b/".toList)) ≠
      normalizeUrl ("http://h/a;b/".toList) := by decide

/-- Witness for C5 at concrete inputs: `http://[x` fails to parse (an
unbalanced bracket), so normalization lowercases it; `http://E.com/a/`
parses with netloc `E.com`, no `;`, a non-degenerate path, and its
normalization is a fixpoint. -/
theorem normalize_url_total_and_conditionally_idempotent_witness :
    normalizeUrl ("http://[x".toList) = lowerL ("http://[x".toList) ∧
    normalizeUrl (normalizeUrl ("http://E.com/a/".toList)) =
      normalizeUrl ("http://E.com/a/".toList) :=
  ⟨normalize_url_total_and_conditionally_idempotent.1 _ (by decide),
   normalize_url_total_and_conditionally_idempotent.2 _
     ⟨"http".toList, "E.com".toList, "/a/".toList, [], [], []⟩
     (by decide) (by decide) (by decide)⟩

end DocToMd
